import Mathlib

/-! # WorkdayPlanner: cost model, neighbourhood generator and tabu search

A shallow embedding of `src/WorkdayPlanner.cpp`: the cost model `Planner::plan`,
the neighbourhood generator `getNeighbours`, the search `tabuSearch` and the
selection made by `printResults`.

Modelling conventions.

* A C++ `double` is an exact rational number (`ℚ`): the arithmetic of the
  source is taken as written, without rounding, infinities or NaN.
* A `std::vector` is a `List`; `push_back` appends at the end.
* Mutation of a `Planner` becomes explicit state passing; `plan()` returns its
  `int` result together with the mutated planner.
* Unchecked indexing (`operator[]`) is total here: it yields an `Option`, and
  `none` stands for an access outside the vector.
* Vector sizes are natural numbers (the `uint32_t` counters of the source never
  wrap on a vector that fits in memory). The `int` arithmetic of `numChoose2`
  is 32-bit, with the reduction modulo `2^32` written out.
-/

namespace WorkdayPlanner

/-! ## Constants (`#define`s of the source) -/

def TIME_INTERVAL : ℚ := 1
def ENERGY_COEF : ℚ := 1
def ENERGY_REGEN : ℚ := 0.01
def ENERGY_LOSE : ℚ := 0.007
def ENERGY_MIN : ℚ := 0.2
def TABU_MAX_SIZE : Nat := 30
def TABU_SEARCH_COUNT : Nat := 200

/-! ## Data model -/

/-- Class `Task`: a name, an expected time and a difficulty. The derived
equality is the source's `operator==` (all three fields equal). -/
structure Task where
  name : String
  expectedTime : ℚ
  difficulty : ℚ
  deriving DecidableEq, Repr

/-- Class `Planner`: the task list and the two accumulators. -/
structure Planner where
  taskList : List Task
  totalTime : ℚ
  energyLevel : ℚ
  deriving DecidableEq, Repr

/-- The default constructor `Planner()`: no task, `totalTime(0)`,
`energyLevel(1)`. -/
def Planner.new : Planner := ⟨[], 0, 1⟩

/-- Method `Planner::resetStats`. -/
def Planner.resetStats (p : Planner) : Planner :=
  { p with energyLevel := 1, totalTime := 0 }

/-! ## Cost model -/

/-- Method `Planner::energyLosePerTimeInterval`. -/
def energyLosePerTimeInterval (task : Task) : ℚ :=
  TIME_INTERVAL * task.difficulty * ENERGY_LOSE

/-- Method `Planner::energyRegenPerTimeInterval`. -/
def energyRegenPerTimeInterval : ℚ :=
  TIME_INTERVAL * ENERGY_REGEN

/-- Method `Planner::calcTaskTime`, with the member `energyLevel` it reads passed
explicitly. -/
def calcTaskTime (energyLevel : ℚ) (task : Task) : ℚ :=
  TIME_INTERVAL * task.expectedTime +
    task.expectedTime * (2 * (TIME_INTERVAL - energyLevel) +
      (task.expectedTime - 1) * energyLosePerTimeInterval task) * ENERGY_COEF

/-- Method `Planner::calcEnergyLevel`, with the member `energyLevel` it reads passed
explicitly. -/
def calcEnergyLevel (energyLevel : ℚ) (task : Task) (taskTime : ℚ) : ℚ :=
  let e := if task.difficulty ≠ 0
    then energyLevel - taskTime * energyLosePerTimeInterval task
    else energyLevel + ENERGY_REGEN * taskTime
  if e > 1 then 1 else e

/-- One pair of assignments `totalTime += ...; energyLevel = ...` made by
`plan()`: `rest` tells the pair of the rest branch (lines 105-106) from the
pair that ends the loop body (lines 117-118); `time` is the amount added to
`totalTime` and `energy` the value stored in `energyLevel`. -/
structure Commit where
  rest : Bool
  time : ℚ
  energy : ℚ
  deriving DecidableEq, Repr

/-- The variables of `Planner::plan` while it walks the task list: the local
vector `temp` and the members `totalTime` and `energyLevel`. The field
`history` is a ghost record of the commits made so far, in order; nothing in
the walk reads it. -/
structure Walk where
  temp : List Task
  totalTime : ℚ
  energyLevel : ℚ
  history : List Commit
  deriving DecidableEq, Repr

/-- The rest task built at line 101 when the energy level is `energyLevel`. -/
def restTask (energyLevel : ℚ) : Task :=
  ⟨"REST", (1 - energyLevel) / energyRegenPerTimeInterval, 0⟩

/-- Lines 101-106 of `plan()`: the rest task is pushed on `temp`, and
`totalTime` and `energyLevel` are updated with the `taskTime` computed at
line 96 for the current task. -/
def restCommit (w : Walk) (taskTime : ℚ) : Walk :=
  let rt := restTask w.energyLevel
  let estEnergyLevel := calcEnergyLevel w.energyLevel rt taskTime
  { temp := w.temp ++ [rt]
    totalTime := w.totalTime + taskTime
    energyLevel := estEnergyLevel
    history := w.history ++ [⟨true, taskTime, estEnergyLevel⟩] }

/-- Lines 114-118 of `plan()`: the task is pushed on `temp` and its time and
estimated energy are committed. -/
def taskCommit (w : Walk) (task : Task) (taskTime estEnergyLevel : ℚ) : Walk :=
  { temp := w.temp ++ [task]
    totalTime := w.totalTime + taskTime
    energyLevel := estEnergyLevel
    history := w.history ++ [⟨false, taskTime, estEnergyLevel⟩] }

/-- The estimate of lines 96-97 (and 108-109): the energy predicted after `task`
when it is started at the given energy level. -/
def estimate (energyLevel : ℚ) (task : Task) : ℚ :=
  calcEnergyLevel energyLevel task (calcTaskTime energyLevel task)

/-- The energy stored by the rest branch (lines 103 and 106): the energy
effect of the rest task over the `taskTime` computed at line 96 for `task`. -/
def restEnergy (energyLevel : ℚ) (task : Task) : ℚ :=
  calcEnergyLevel energyLevel (restTask energyLevel) (calcTaskTime energyLevel task)

/-- The `for` loop of `Planner::plan` (lines 94-119) over the tasks still to
visit. The first component is `1` when the loop was left by `return 1` and `0`
when it ran to its end. -/
def planLoop : List Task → Walk → Int × Walk
  | [], w => (0, w)
  | task :: tasks, w =>
    let taskTime := calcTaskTime w.energyLevel task
    let estEnergyLevel := calcEnergyLevel w.energyLevel task taskTime
    if estEnergyLevel < ENERGY_MIN then
      let w1 := restCommit w taskTime
      let taskTime1 := calcTaskTime w1.energyLevel task
      let estEnergyLevel1 := calcEnergyLevel w1.energyLevel task taskTime1
      if estEnergyLevel1 < 0 then (1, w1)
      else planLoop tasks (taskCommit w1 task taskTime1 estEnergyLevel1)
    else planLoop tasks (taskCommit w task taskTime estEnergyLevel)

/-- The state in which `plan()` enters its loop: `temp` empty, the members as
they are in the planner. -/
def Planner.start (p : Planner) : Walk :=
  ⟨[], p.totalTime, p.energyLevel, []⟩

/-- Method `Planner::plan`: the returned `int` and the planner as the call leaves it.
`taskList = temp` is executed only on the path that returns `0`; the
accumulators are members and keep what the loop stored in them on both
paths. -/
def Planner.plan (p : Planner) : Int × Planner :=
  let r := planLoop p.taskList p.start
  (r.1, { taskList := if r.1 = 0 then r.2.temp else p.taskList
          totalTime := r.2.totalTime
          energyLevel := r.2.energyLevel })

/-- The commits made by a call of `plan()`, in order. -/
def Planner.planHistory (p : Planner) : List Commit :=
  (planLoop p.taskList p.start).2.history


/-! ## Neighbourhood generator -/

/-- The value a 32-bit `int` holds for the mathematical result `x`: `x` reduced
modulo `2^32` into `[-2^31, 2^31)`, which is `x` itself when it fits. -/
def wrapInt32 (x : Int) : Int := (x + 2147483648) % 4294967296 - 2147483648

/-- Function `numChoose2` on the 32-bit `int` of the source: the product
`num * (num - 1)` is held in an `int` and `/` truncates toward zero. The
product no longer fits from `num = 46342` on. The reduction depends on `num`
modulo `2^32` only, so it also covers the conversion of `solution.size()` to
the `int` parameter. -/
def numChoose2 (num : Int) : Int := Int.tdiv (wrapInt32 (num * (num - 1))) 2

/-- The call `std::swap(temp[i], temp[j])` on a copy `temp` of `solution`. The loops of
`getNeighbours` only call it with both positions inside the vector; outside
them the copy is returned as it is. -/
def swapAt (solution : List Task) (i j : Nat) : List Task :=
  match solution[i]?, solution[j]? with
  | some a, some b => (solution.set i b).set j a
  | _, _ => solution

/-- Function `getNeighbours`: the outer loop over `i` from `0` while `i < size`, the
inner loop over `j` from `i + 1` while `j < size`, each pass pushing the
swapped copy on `neighouringSolutions`. -/
def getNeighbours (solution : List Task) : List (List Task) :=
  (List.range solution.length).foldl
    (fun neighouringSolutions i =>
      (List.range' (i + 1) (solution.length - (i + 1))).foldl
        (fun neighouringSolutions j => neighouringSolutions ++ [swapAt solution i j])
        neighouringSolutions)
    []

/-- Specification §4.2, the position pairs `(i, j)` with `0 ≤ i < j < n` in
ascending-`i`-then-ascending-`j` order. -/
def positionPairs (n : Nat) : List (Nat × Nat) :=
  (List.range n).flatMap fun i =>
    ((List.range n).filter fun j => i < j).map fun j => (i, j)

/-- Specification §4.2, the sequence `s` with the elements at positions `i`
and `j` exchanged and every other position unchanged, position by
position. -/
def exchanged (s : List Task) (i j : Nat) : List Task :=
  List.ofFn fun k : Fin s.length =>
    if k.val = i then (s[j]?).getD s[k]
    else if k.val = j then (s[i]?).getD s[k]
    else s[k]

/-- Specification §4.2, `neighbors(sequence)`: one exchanged sequence per
position pair, in the order of the pairs. -/
def neighboursSpec (s : List Task) : List (List Task) :=
  (positionPairs s.length).map fun ij => exchanged s ij.1 ij.2

/-! ## Tabu search -/

/-- One pass of the candidate loop of `tabuSearch` (lines 263-282). The state
is the pair of `bestSolutionsList[i]` and `previousRawSolution`. The three
members of `candidatePlanner` are overwritten at the head of every pass
(`taskList = candidate; resetStats()`), so the pass starts from the planner
`(candidate, 0, 1)`. A candidate found in `tabuList`, or whose `plan()` does not
return 0, leaves the state as it is. -/
def candidateStep (tabuList : List (List Task)) (st : Planner × List Task)
    (candidate : List Task) : Planner × List Task :=
  let tempRawCandidate := candidate
  let candidatePlanner : Planner := Planner.resetStats ⟨candidate, 0, 1⟩
  if candidatePlanner.taskList ∉ tabuList then
    let r := candidatePlanner.plan
    if r.1 ≠ 0 then st
    else if r.2.totalTime < st.1.totalTime then (r.2, tempRawCandidate)
    else st
  else st

/-- Lines 257-282 of `tabuSearch` for the entry `cur = bestSolutionsList[i]`:
the neighbourhood of its task list is generated, its first element is planned
in `cur` (the value returned by `plan()` is dropped) and becomes
`previousRawSolution`, then the candidate loop runs. The result is the final
`bestSolutionsList[i]` and `previousRawSolution`; `none` when `neighbourhood[0]`
is outside the vector. -/
def searchNeighbourhood (cur : Planner) (tabuList : List (List Task)) :
    Option (Planner × List Task) :=
  let neighbourhood := getNeighbours cur.taskList
  match neighbourhood[0]? with
  | none => none
  | some first =>
    let cur1 := (Planner.plan { cur with taskList := first }).2
    some (neighbourhood.foldl (candidateStep tabuList) (cur1, first))

/-- The variables of `tabuSearch` that live across its iterations. -/
structure TabuState where
  bestSolutionsList : List Planner
  tabuList : List (List Task)
  previousRawSolution : List Task
  deriving DecidableEq, Repr

/-- The body of the main loop of `tabuSearch` (lines 250-286) for the counter
value `i`. -/
def tabuIteration (st : TabuState) (i : Nat) : Option TabuState :=
  let bestSolutionsList := st.bestSolutionsList ++ [Planner.new]
  match bestSolutionsList[i]? with
  | none => none
  | some cur =>
    let cur0 : Planner := if i > 0 then { cur with taskList := st.previousRawSolution } else cur
    match searchNeighbourhood cur0 st.tabuList with
    | none => none
    | some (best, previousRawSolution) =>
      let tabuList := st.tabuList ++ [best.taskList]
      some { bestSolutionsList := bestSolutionsList.set i best
             tabuList := if tabuList.length ≥ TABU_MAX_SIZE then tabuList.tail else tabuList
             previousRawSolution := previousRawSolution }

/-- The initialisation of `tabuSearch` (lines 236-246). -/
def tabuInit (planner : Planner) : TabuState :=
  { bestSolutionsList := [{ Planner.new with taskList := planner.taskList }]
    tabuList := [planner.taskList]
    previousRawSolution := planner.taskList }

/-- The state of `tabuSearch` after the iterations `i = 0, ..., count - 1`. -/
def tabuRun (planner : Planner) (count : Nat) : Option TabuState :=
  (List.range count).foldlM tabuIteration (tabuInit planner)

/-- Function `tabuSearch`: the `bestSolutionsList` left by `TABU_SEARCH_COUNT`
iterations. -/
def tabuSearch (planner : Planner) : Option (List Planner) :=
  (tabuRun planner TABU_SEARCH_COUNT).map fun st => st.bestSolutionsList

/-! ## Result selection -/

/-- The constant `UINT32_MAX`, stored in the `double` member `totalTime`. -/
def UINT32_MAX : ℚ := 4294967295

/-- The selection made by `printResults` (lines 187-203), without the
printing: `results.pop_back()`, then a scan that starts from a default planner
whose `totalTime` is `UINT32_MAX` and takes over every result whose
`totalTime` is strictly below the one held. The value is `overallBestResult`;
`none` stands for `pop_back` on an empty vector. -/
def printResults (results : List Planner) : Option Planner :=
  match results with
  | [] => none
  | _ :: _ =>
    some (results.dropLast.foldl
      (fun overallBestResult result =>
        if result.totalTime < overallBestResult.totalTime then result else overallBestResult)
      { Planner.new with totalTime := UINT32_MAX })

/-- The task list from which iteration `i` of `tabuSearch` generates its
neighbourhood (line 257): `bestSolutionsList[i].taskList` as lines 254-255
leave it, that is `previousRawSolution` for `i > 0` and the list stored at
initialisation for `i = 0`. -/
def tabuBaseline (st : TabuState) (i : Nat) : Option (List Task) :=
  match (st.bestSolutionsList ++ [Planner.new])[i]? with
  | none => none
  | some cur => some (if i > 0 then st.previousRawSolution else cur.taskList)

/-- Specification §3 and glossary, a feasible result: a planner is feasible
when it is what a call of `plan()` that returned 0 leaves of a planner reset
to time 0 and energy 1, the state in which `tabuSearch` evaluates every
sequence. -/
def Planner.Feasible (q : Planner) : Prop :=
  ∃ ts : List Task, Planner.plan ⟨ts, 0, 1⟩ = (0, q)

/-! ## Lemmas on the walk of `plan()` -/

theorem calcEnergyLevel_le_one (e : ℚ) (t : Task) (tt : ℚ) :
    calcEnergyLevel e t tt ≤ 1 := by
  unfold calcEnergyLevel
  simp only
  split_ifs <;> linarith

theorem planLoop_nil (w : Walk) : planLoop [] w = (0, w) := rfl

theorem planLoop_cons (t : Task) (ts : List Task) (w : Walk) :
    planLoop (t :: ts) w =
      if estimate w.energyLevel t < ENERGY_MIN then
        if estimate (restCommit w (calcTaskTime w.energyLevel t)).energyLevel t < 0 then
          (1, restCommit w (calcTaskTime w.energyLevel t))
        else planLoop ts (taskCommit (restCommit w (calcTaskTime w.energyLevel t)) t
          (calcTaskTime (restCommit w (calcTaskTime w.energyLevel t)).energyLevel t)
          (estimate (restCommit w (calcTaskTime w.energyLevel t)).energyLevel t))
      else planLoop ts (taskCommit w t (calcTaskTime w.energyLevel t) (estimate w.energyLevel t)) := rfl

/-- An invariant of the walk: a property kept by the rest commit and by the
task commit (whose committed energy is never negative) holds when the loop is
left, on either path. -/
theorem planLoop_invariant (P : Walk → Prop) (ts : List Task)
    (hrest : ∀ w t, t ∈ ts → P w → P (restCommit w (calcTaskTime w.energyLevel t)))
    (htask : ∀ w t, t ∈ ts → P w → 0 ≤ estimate w.energyLevel t →
      P (taskCommit w t (calcTaskTime w.energyLevel t) (estimate w.energyLevel t)))
    (w : Walk) (hw : P w) : P (planLoop ts w).2 := by
  induction ts generalizing w with
  | nil => exact hw
  | cons t ts ih =>
    have ih' := ih (fun w u hu => hrest w u (List.mem_cons_of_mem _ hu))
      (fun w u hu => htask w u (List.mem_cons_of_mem _ hu))
    have hmin : (0 : ℚ) ≤ ENERGY_MIN := by norm_num [ENERGY_MIN]
    rw [planLoop_cons]
    split_ifs with h1 h2
    · exact hrest w t (List.mem_cons_self _ _) hw
    · exact ih' _ (htask _ t (List.mem_cons_self _ _)
        (hrest w t (List.mem_cons_self _ _) hw) (not_lt.mp h2))
    · exact ih' _ (htask w t (List.mem_cons_self _ _) hw (le_trans hmin (not_lt.mp h1)))

theorem planLoop_ret (ts : List Task) (w : Walk) :
    (planLoop ts w).1 = 0 ∨ (planLoop ts w).1 = 1 := by
  induction ts generalizing w with
  | nil => exact Or.inl rfl
  | cons t ts ih =>
    rw [planLoop_cons]
    split_ifs
    · exact Or.inr rfl
    · exact ih _
    · exact ih _

theorem planLoop_append (pre post : List Task) (w : Walk) :
    planLoop (pre ++ post) w =
      if (planLoop pre w).1 = 0 then planLoop post (planLoop pre w).2
      else planLoop pre w := by
  induction pre generalizing w with
  | nil => simp [planLoop_nil]
  | cons t ts ih =>
    rw [List.cons_append, planLoop_cons, planLoop_cons]
    split_ifs <;> simp_all

theorem planLoop_temp (ts : List Task) (w : Walk) :
    ∃ out, (planLoop ts w).2.temp = w.temp ++ out := by
  induction ts generalizing w with
  | nil => exact ⟨[], by simp [planLoop_nil]⟩
  | cons t ts ih =>
    rw [planLoop_cons]
    split_ifs
    · exact ⟨[restTask w.energyLevel], rfl⟩
    · obtain ⟨out, h⟩ := ih (taskCommit (restCommit w (calcTaskTime w.energyLevel t)) t
          (calcTaskTime (restCommit w (calcTaskTime w.energyLevel t)).energyLevel t)
          (estimate (restCommit w (calcTaskTime w.energyLevel t)).energyLevel t))
      exact ⟨restTask w.energyLevel :: t :: out, by rw [h]; simp [taskCommit, restCommit]⟩
    · obtain ⟨out, h⟩ := ih (taskCommit w t (calcTaskTime w.energyLevel t) (estimate w.energyLevel t))
      exact ⟨t :: out, by rw [h]; simp [taskCommit]⟩

/-- The output of a successful walk of `t :: post`: a rest task first when
the estimate is below the threshold, then `t`, then what the later tasks
add. -/
theorem planLoop_cons_temp (t : Task) (post : List Task) (w : Walk)
    (h : (planLoop (t :: post) w).1 = 0) :
    ∃ out, (planLoop (t :: post) w).2.temp =
      w.temp ++ (if estimate w.energyLevel t < ENERGY_MIN then [restTask w.energyLevel, t] else [t])
        ++ out := by
  rw [planLoop_cons] at h ⊢
  split_ifs at h ⊢ with h1 h2
  · simp at h
  · obtain ⟨out, ho⟩ := planLoop_temp post (taskCommit (restCommit w (calcTaskTime w.energyLevel t)) t
          (calcTaskTime (restCommit w (calcTaskTime w.energyLevel t)).energyLevel t)
          (estimate (restCommit w (calcTaskTime w.energyLevel t)).energyLevel t))
    exact ⟨out, by rw [ho]; simp [taskCommit, restCommit]⟩
  · obtain ⟨out, ho⟩ := planLoop_temp post (taskCommit w t (calcTaskTime w.energyLevel t) (estimate w.energyLevel t))
    exact ⟨out, by rw [ho]; simp [taskCommit]⟩

theorem plan_fst (p : Planner) : p.plan.1 = (planLoop p.taskList p.start).1 := rfl

theorem plan_taskList_of_success (p : Planner) (h : p.plan.1 = 0) :
    p.plan.2.taskList = (planLoop p.taskList p.start).2.temp := by
  rw [plan_fst] at h
  simp [Planner.plan, h]

theorem plan_energyLevel (p : Planner) :
    p.plan.2.energyLevel = (planLoop p.taskList p.start).2.energyLevel := rfl

theorem plan_totalTime (p : Planner) :
    p.plan.2.totalTime = (planLoop p.taskList p.start).2.totalTime := rfl

/-- C1. A single task of non-zero difficulty planned from energy 1 and time
0, whose predicted energy is at least 0.2: `plan()` returns 0, the task list
is the input, `totalTime = E + E*(2*(1-1) + (E-1)*d*0.007)` and
`energyLevel = min(1, 1 - totalTime*d*0.007)`. -/
theorem plan_single_task (t : Task) (hd : t.difficulty ≠ 0)
    (hp : ENERGY_MIN ≤ calcEnergyLevel 1 t (calcTaskTime 1 t)) :
    Planner.plan ⟨[t], 0, 1⟩ =
      (0, ⟨[t],
        t.expectedTime + t.expectedTime *
          (2 * (1 - 1) + (t.expectedTime - 1) * t.difficulty * 0.007),
        min 1 (1 - (t.expectedTime + t.expectedTime *
          (2 * (1 - 1) + (t.expectedTime - 1) * t.difficulty * 0.007))
            * t.difficulty * 0.007)⟩) := by
  have hT : calcTaskTime 1 t = t.expectedTime + t.expectedTime *
      (2 * (1 - 1) + (t.expectedTime - 1) * t.difficulty * 0.007) := by
    simp only [calcTaskTime, energyLosePerTimeInterval, TIME_INTERVAL, ENERGY_COEF, ENERGY_LOSE]
    ring
  have hE : calcEnergyLevel 1 t (calcTaskTime 1 t) =
      min 1 (1 - calcTaskTime 1 t * t.difficulty * 0.007) := by
    simp only [calcEnergyLevel, energyLosePerTimeInterval, TIME_INTERVAL, ENERGY_LOSE, if_pos hd]
    rw [min_def]
    have e : calcTaskTime 1 t * (1 * t.difficulty * 0.007) = calcTaskTime 1 t * t.difficulty * 0.007 := by
      ring
    rw [e]
    split_ifs <;> linarith
  have hl : planLoop [t] ⟨[], 0, 1, []⟩ =
      (0, taskCommit ⟨[], 0, 1, []⟩ t (calcTaskTime 1 t)
        (calcEnergyLevel 1 t (calcTaskTime 1 t))) := by
    have hp' : ¬ estimate (1 : ℚ) t < ENERGY_MIN := not_lt.mpr hp
    rw [planLoop_cons, if_neg hp']
    rfl
  rw [hE, hT] at hl
  simp only [Planner.plan, Planner.start, hl, taskCommit]
  simp

/-- Witness of C1, the scenario of the specification: the task `(E = 2,
d = 0.5)` gives `totalTime = 2.007` and `energyLevel = 0.9929755`. -/
theorem plan_single_task_witness :
    (⟨"1", 2, 0.5⟩ : Task).difficulty ≠ 0 ∧
    ENERGY_MIN ≤ calcEnergyLevel 1 ⟨"1", 2, 0.5⟩ (calcTaskTime 1 ⟨"1", 2, 0.5⟩) ∧
    Planner.plan ⟨[⟨"1", 2, 0.5⟩], 0, 1⟩ = (0, ⟨[⟨"1", 2, 0.5⟩], 2.007, 0.9929755⟩) := by
  refine ⟨by decide!, by decide!, ?_⟩
  rw [plan_single_task ⟨"1", 2, 0.5⟩ (by decide!) (by decide!)]
  norm_num


/-- C3. Energy clamp: when `plan()` starts from an energy level of at most 1,
every energy it commits (after a rest task or after a task) is at most 1, and
so is the `energyLevel` it leaves. -/
theorem plan_energy_le_one (p : Planner) (h : p.energyLevel ≤ 1) :
    (∀ c ∈ p.planHistory, c.energy ≤ 1) ∧ p.plan.2.energyLevel ≤ 1 := by
  have key := planLoop_invariant
    (fun w => (∀ c ∈ w.history, c.energy ≤ 1) ∧ w.energyLevel ≤ 1) p.taskList
    (by
      intro w t _ hw
      refine ⟨?_, calcEnergyLevel_le_one _ _ _⟩
      intro c hc
      simp only [restCommit, List.mem_append, List.mem_singleton] at hc
      rcases hc with hc | hc
      · exact hw.1 c hc
      · rw [hc]; exact calcEnergyLevel_le_one _ _ _)
    (by
      intro w t _ hw _
      refine ⟨?_, calcEnergyLevel_le_one _ _ _⟩
      intro c hc
      simp only [taskCommit, List.mem_append, List.mem_singleton] at hc
      rcases hc with hc | hc
      · exact hw.1 c hc
      · rw [hc]; exact calcEnergyLevel_le_one _ _ _)
    p.start ⟨by simp [Planner.start], h⟩
  exact key

/-- Witness of C3 on the input `[(20, 3), (5, 3)]`. -/
theorem plan_energy_le_one_witness :
    (1 : ℚ) ≤ 1 ∧
    (∀ c ∈ Planner.planHistory ⟨[⟨"1", 20, 3⟩, ⟨"2", 5, 3⟩], 0, 1⟩, c.energy ≤ 1) ∧
    (Planner.plan ⟨[⟨"1", 20, 3⟩, ⟨"2", 5, 3⟩], 0, 1⟩).2.energyLevel ≤ 1 :=
  ⟨le_refl 1, plan_energy_le_one ⟨[⟨"1", 20, 3⟩, ⟨"2", 5, 3⟩], 0, 1⟩ (le_refl 1)⟩
/-- C2, the code at the failing input `[(20, 3), (5, 3)]`: the second task is
reached at energy 0.41242 and gets a rest task. The rest commit adds 11.2958,
the `taskTime` of the task `(5, 3)` itself, to `totalTime` and stores
`0.41242 + 0.01 * 11.2958 = 0.525378`, whereas the rest task's own time is
127.80805128 and its own energy effect is 1. -/
theorem plan_rest_commit_uses_task_time :
    Planner.planHistory ⟨[⟨"1", 20, 3⟩, ⟨"2", 5, 3⟩], 0, 1⟩ =
      [⟨false, 27.98, 0.41242⟩, ⟨true, 11.2958, 0.525378⟩, ⟨false, 10.16622, 0.31188738⟩] ∧
    calcTaskTime 0.41242 ⟨"2", 5, 3⟩ = 11.2958 ∧
    calcTaskTime 0.41242 (restTask 0.41242) = 127.80805128 ∧
    calcEnergyLevel 0.41242 (restTask 0.41242) (calcTaskTime 0.41242 (restTask 0.41242)) = 1 := by
  decide!

/-- The walk does not read `temp` or the history: started from any walk it
returns the same code and the same accumulators as started from the walk with
the same time and energy and an empty `temp`, and its `temp` is the `temp` it
started with followed by what that walk produces. -/
theorem planLoop_shift (ts : List Task) (w : Walk) :
    (planLoop ts w).1 = (planLoop ts ⟨[], w.totalTime, w.energyLevel, []⟩).1 ∧
    (planLoop ts w).2.temp =
      w.temp ++ (planLoop ts ⟨[], w.totalTime, w.energyLevel, []⟩).2.temp ∧
    (planLoop ts w).2.totalTime =
      (planLoop ts ⟨[], w.totalTime, w.energyLevel, []⟩).2.totalTime ∧
    (planLoop ts w).2.energyLevel =
      (planLoop ts ⟨[], w.totalTime, w.energyLevel, []⟩).2.energyLevel := by
  induction ts generalizing w with
  | nil => simp [planLoop_nil]
  | cons t ts ih =>
    rw [planLoop_cons, planLoop_cons]
    by_cases h1 : estimate w.energyLevel t < ENERGY_MIN
    · by_cases h2 : estimate (restCommit w (calcTaskTime w.energyLevel t)).energyLevel t < 0
      · have h1' : estimate (Walk.mk [] w.totalTime w.energyLevel []).energyLevel t
            < ENERGY_MIN := h1
        have h2' : estimate (restCommit (Walk.mk [] w.totalTime w.energyLevel [])
            (calcTaskTime (Walk.mk [] w.totalTime w.energyLevel []).energyLevel t)).energyLevel t
              < 0 := h2
        rw [if_pos h1, if_pos h2, if_pos h1', if_pos h2']
        simp [restCommit]
      · have h1' : estimate (Walk.mk [] w.totalTime w.energyLevel []).energyLevel t
            < ENERGY_MIN := h1
        have h2' : ¬ estimate (restCommit (Walk.mk [] w.totalTime w.energyLevel [])
            (calcTaskTime (Walk.mk [] w.totalTime w.energyLevel []).energyLevel t)).energyLevel t
              < 0 := h2
        rw [if_pos h1, if_neg h2, if_pos h1', if_neg h2']
        obtain ⟨a1, a2, a3, a4⟩ := ih (taskCommit (restCommit w (calcTaskTime w.energyLevel t)) t
          (calcTaskTime (restCommit w (calcTaskTime w.energyLevel t)).energyLevel t)
          (estimate (restCommit w (calcTaskTime w.energyLevel t)).energyLevel t))
        obtain ⟨b1, b2, b3, b4⟩ := ih (taskCommit (restCommit
            (Walk.mk [] w.totalTime w.energyLevel [])
            (calcTaskTime (Walk.mk [] w.totalTime w.energyLevel []).energyLevel t)) t
          (calcTaskTime (restCommit (Walk.mk [] w.totalTime w.energyLevel [])
            (calcTaskTime (Walk.mk [] w.totalTime w.energyLevel []).energyLevel t)).energyLevel t)
          (estimate (restCommit (Walk.mk [] w.totalTime w.energyLevel [])
            (calcTaskTime (Walk.mk [] w.totalTime w.energyLevel []).energyLevel t)).energyLevel t))
        refine ⟨a1.trans b1.symm, ?_, a3.trans b3.symm, a4.trans b4.symm⟩
        rw [a2, b2]
        simp [taskCommit, restCommit]
    · have h1' : ¬ estimate (Walk.mk [] w.totalTime w.energyLevel []).energyLevel t
          < ENERGY_MIN := h1
      rw [if_neg h1, if_neg h1']
      obtain ⟨a1, a2, a3, a4⟩ := ih (taskCommit w t (calcTaskTime w.energyLevel t)
        (estimate w.energyLevel t))
      obtain ⟨b1, b2, b3, b4⟩ := ih (taskCommit (Walk.mk [] w.totalTime w.energyLevel []) t
        (calcTaskTime (Walk.mk [] w.totalTime w.energyLevel []).energyLevel t)
        (estimate (Walk.mk [] w.totalTime w.energyLevel []).energyLevel t))
      refine ⟨a1.trans b1.symm, ?_, a3.trans b3.symm, a4.trans b4.symm⟩
      rw [a2, b2]
      simp [taskCommit]

/-- The walk of a single task that does not fail pushes exactly the task,
preceded by the rest task when the estimate is below the threshold. -/
theorem planLoop_single_temp (t : Task) (w : Walk) (h : (planLoop [t] w).1 = 0) :
    (planLoop [t] w).2.temp =
      w.temp ++ (if estimate w.energyLevel t < ENERGY_MIN then [restTask w.energyLevel, t]
        else [t]) := by
  rw [planLoop_cons] at h ⊢
  split_ifs at h ⊢ with h1 h2
  · simp at h
  · simp [planLoop_nil, taskCommit, restCommit]
  · simp [planLoop_nil, taskCommit]

/-- C4. On a successful `plan()`, for every input task `t` (the input split
as `pre ++ t :: post`), with `q` the planner left by planning `pre` alone and
`q1` the planner left by planning `pre ++ [t]`: both plans succeed; the output
of `q1` is exactly the output of `q` followed by `t` alone when the energy
predicted for `t` at the level of `q` is at least 0.2, and followed by the task
`("REST", (1 - energy) / 0.01, 0)` and then `t` when it is below 0.2; the whole
output is exactly the output of `q1` followed by the output of planning `post`
from the time and energy of `q1`; and planning no task outputs no task. Every
element of the output is thereby accounted for: a rest task stands only
directly before a task whose predicted energy is below 0.2. -/
theorem plan_rest_before_task (p : Planner) (pre post : List Task) (t : Task)
    (hs : p.plan.1 = 0) (hsplit : p.taskList = pre ++ t :: post) :
    (Planner.plan ⟨pre, p.totalTime, p.energyLevel⟩).1 = 0 ∧
    (Planner.plan ⟨pre ++ [t], p.totalTime, p.energyLevel⟩).1 = 0 ∧
    (Planner.plan ⟨pre ++ [t], p.totalTime, p.energyLevel⟩).2.taskList =
      (Planner.plan ⟨pre, p.totalTime, p.energyLevel⟩).2.taskList ++
        (if calcEnergyLevel (Planner.plan ⟨pre, p.totalTime, p.energyLevel⟩).2.energyLevel t
              (calcTaskTime (Planner.plan ⟨pre, p.totalTime, p.energyLevel⟩).2.energyLevel t) < 0.2
          then [⟨"REST",
            (1 - (Planner.plan ⟨pre, p.totalTime, p.energyLevel⟩).2.energyLevel) / 0.01, 0⟩, t]
          else [t]) ∧
    (Planner.plan ⟨post,
        (Planner.plan ⟨pre ++ [t], p.totalTime, p.energyLevel⟩).2.totalTime,
        (Planner.plan ⟨pre ++ [t], p.totalTime, p.energyLevel⟩).2.energyLevel⟩).1 = 0 ∧
    p.plan.2.taskList =
      (Planner.plan ⟨pre ++ [t], p.totalTime, p.energyLevel⟩).2.taskList ++
        (Planner.plan ⟨post,
          (Planner.plan ⟨pre ++ [t], p.totalTime, p.energyLevel⟩).2.totalTime,
          (Planner.plan ⟨pre ++ [t], p.totalTime, p.energyLevel⟩).2.energyLevel⟩).2.taskList ∧
    Planner.plan ⟨[], p.totalTime, p.energyLevel⟩ = (0, ⟨[], p.totalTime, p.energyLevel⟩) := by
  have hq : (Planner.plan ⟨pre, p.totalTime, p.energyLevel⟩).1 = (planLoop pre p.start).1 := rfl
  have hq1 : (Planner.plan ⟨pre ++ [t], p.totalTime, p.energyLevel⟩).1 =
      (planLoop (pre ++ [t]) p.start).1 := rfl
  -- the walk of the whole list, cut after `pre ++ [t]`
  have hcut : p.taskList = (pre ++ [t]) ++ post := by rw [hsplit]; simp
  have hl : planLoop p.taskList p.start =
      if (planLoop (pre ++ [t]) p.start).1 = 0
      then planLoop post (planLoop (pre ++ [t]) p.start).2
      else planLoop (pre ++ [t]) p.start := by
    rw [hcut, planLoop_append]
  have h1 : (planLoop (pre ++ [t]) p.start).1 = 0 := by
    by_contra hne
    rw [plan_fst, hl, if_neg hne] at hs
    exact hne hs
  rw [if_pos h1] at hl
  -- the walk of `pre ++ [t]`, cut after `pre`
  have hl1 : planLoop (pre ++ [t]) p.start =
      if (planLoop pre p.start).1 = 0 then planLoop [t] (planLoop pre p.start).2
      else planLoop pre p.start := planLoop_append pre [t] p.start
  have h0 : (planLoop pre p.start).1 = 0 := by
    by_contra hne
    rw [hl1, if_neg hne] at h1
    exact hne h1
  rw [if_pos h0] at hl1
  have ht : (planLoop [t] (planLoop pre p.start).2).1 = 0 := by rw [← hl1]; exact h1
  have hpost : (planLoop post (planLoop (pre ++ [t]) p.start).2).1 = 0 := by
    rw [← hl, ← plan_fst]; exact hs
  obtain ⟨s1, s2, -, -⟩ := planLoop_shift post (planLoop (pre ++ [t]) p.start).2
  have hpf : (Planner.plan ⟨post,
        (Planner.plan ⟨pre ++ [t], p.totalTime, p.energyLevel⟩).2.totalTime,
        (Planner.plan ⟨pre ++ [t], p.totalTime, p.energyLevel⟩).2.energyLevel⟩).1 = 0 :=
    s1.symm.trans hpost
  refine ⟨hq.trans h0, hq1.trans h1, ?_, hpf, ?_, rfl⟩
  · rw [plan_taskList_of_success _ (hq1.trans h1), plan_taskList_of_success _ (hq.trans h0),
      plan_energyLevel]
    have hm : ENERGY_MIN = 0.2 := rfl
    have hr : energyRegenPerTimeInterval = 0.01 := by
      norm_num [energyRegenPerTimeInterval, TIME_INTERVAL, ENERGY_REGEN]
    have hsingle := planLoop_single_temp t (planLoop pre p.start).2 ht
    rw [← hl1] at hsingle
    simp only [estimate, restTask, hm, hr] at hsingle
    exact hsingle
  · rw [plan_taskList_of_success p hs, hl, s2, plan_taskList_of_success _ hpf,
      plan_taskList_of_success _ (hq1.trans h1)]
    rfl

/-- Witness of C4: the input `[(20, 3), (5, 3)]` split before its second
task; the output is `[(20, 3), REST(58.758), (5, 3)]`. -/
theorem plan_rest_before_task_witness :
    (Planner.plan ⟨[⟨"1", 20, 3⟩, ⟨"2", 5, 3⟩], 0, 1⟩).1 = 0 ∧
    (Planner.plan ⟨[⟨"1", 20, 3⟩, ⟨"2", 5, 3⟩], 0, 1⟩).2.taskList =
      [⟨"1", 20, 3⟩, ⟨"REST", 58.758, 0⟩, ⟨"2", 5, 3⟩] ∧
    (Planner.plan ⟨[⟨"1", 20, 3⟩], 0, 1⟩).1 = 0 ∧
    (Planner.plan ⟨[⟨"1", 20, 3⟩] ++ [⟨"2", 5, 3⟩], 0, 1⟩).1 = 0 ∧
    (Planner.plan ⟨[⟨"1", 20, 3⟩] ++ [⟨"2", 5, 3⟩], 0, 1⟩).2.taskList =
      (Planner.plan ⟨[⟨"1", 20, 3⟩], 0, 1⟩).2.taskList ++
        (if calcEnergyLevel (Planner.plan ⟨[⟨"1", 20, 3⟩], 0, 1⟩).2.energyLevel ⟨"2", 5, 3⟩
              (calcTaskTime (Planner.plan ⟨[⟨"1", 20, 3⟩], 0, 1⟩).2.energyLevel ⟨"2", 5, 3⟩) < 0.2
          then [⟨"REST", (1 - (Planner.plan ⟨[⟨"1", 20, 3⟩], 0, 1⟩).2.energyLevel) / 0.01, 0⟩,
            ⟨"2", 5, 3⟩]
          else [⟨"2", 5, 3⟩]) ∧
    (Planner.plan ⟨[],
        (Planner.plan ⟨[⟨"1", 20, 3⟩] ++ [⟨"2", 5, 3⟩], 0, 1⟩).2.totalTime,
        (Planner.plan ⟨[⟨"1", 20, 3⟩] ++ [⟨"2", 5, 3⟩], 0, 1⟩).2.energyLevel⟩).1 = 0 ∧
    (Planner.plan ⟨[⟨"1", 20, 3⟩, ⟨"2", 5, 3⟩], 0, 1⟩).2.taskList =
      (Planner.plan ⟨[⟨"1", 20, 3⟩] ++ [⟨"2", 5, 3⟩], 0, 1⟩).2.taskList ++
        (Planner.plan ⟨[],
          (Planner.plan ⟨[⟨"1", 20, 3⟩] ++ [⟨"2", 5, 3⟩], 0, 1⟩).2.totalTime,
          (Planner.plan ⟨[⟨"1", 20, 3⟩] ++ [⟨"2", 5, 3⟩], 0, 1⟩).2.energyLevel⟩).2.taskList ∧
    Planner.plan ⟨[], 0, 1⟩ = (0, ⟨[], 0, 1⟩) :=
  ⟨by decide!, by decide!, plan_rest_before_task ⟨[⟨"1", 20, 3⟩, ⟨"2", 5, 3⟩], 0, 1⟩
    [⟨"1", 20, 3⟩] [] ⟨"2", 5, 3⟩ (by decide!) rfl⟩

theorem restCommit_energyLevel (w : Walk) (t : Task) :
    (restCommit w (calcTaskTime w.energyLevel t)).energyLevel = restEnergy w.energyLevel t := rfl

/-- A walk fails exactly when it reaches a task whose estimate is below the
threshold and whose estimate recomputed after the rest commit is negative. -/
theorem planLoop_fail_iff (ts : List Task) (w : Walk) :
    (planLoop ts w).1 = 1 ↔
      ∃ pre t post, ts = pre ++ t :: post ∧ (planLoop pre w).1 = 0 ∧
        estimate (planLoop pre w).2.energyLevel t < ENERGY_MIN ∧
        estimate (restEnergy (planLoop pre w).2.energyLevel t) t < 0 := by
  induction ts generalizing w with
  | nil =>
    constructor
    · intro h; simp [planLoop_nil] at h
    · rintro ⟨pre, t, post, h, -⟩; simp at h
  | cons a ts ih =>
    constructor
    · intro h
      rw [planLoop_cons] at h
      split_ifs at h with h1 h2
      · exact ⟨[], a, ts, rfl, rfl, h1, h2⟩
      · obtain ⟨pre, t, post, hsp, h0, he, hr⟩ := (ih _).mp h
        refine ⟨a :: pre, t, post, by rw [hsp]; rfl, ?_⟩
        rw [planLoop_cons, if_pos h1, if_neg h2]
        exact ⟨h0, he, hr⟩
      · obtain ⟨pre, t, post, hsp, h0, he, hr⟩ := (ih _).mp h
        refine ⟨a :: pre, t, post, by rw [hsp]; rfl, ?_⟩
        rw [planLoop_cons, if_neg h1]
        exact ⟨h0, he, hr⟩
    · rintro ⟨pre, t, post, hsp, h0, he, hr⟩
      rw [hsp, planLoop_append, if_pos h0, planLoop_cons, if_pos he,
        restCommit_energyLevel, if_pos hr]

/-- The state in which a failing walk is left: the rest commit made for the
failing task, nothing after it. -/
theorem planLoop_fail_state (pre post : List Task) (t : Task) (w : Walk)
    (h0 : (planLoop pre w).1 = 0)
    (he : estimate (planLoop pre w).2.energyLevel t < ENERGY_MIN)
    (hr : estimate (restEnergy (planLoop pre w).2.energyLevel t) t < 0) :
    planLoop (pre ++ t :: post) w =
      (1, restCommit (planLoop pre w).2 (calcTaskTime (planLoop pre w).2.energyLevel t)) := by
  rw [planLoop_append, if_pos h0, planLoop_cons, if_pos he, restCommit_energyLevel, if_pos hr]

theorem planLoop_success_energy (ts : List Task) (w : Walk) (hw : 0 ≤ w.energyLevel)
    (h : (planLoop ts w).1 = 0) : 0 ≤ (planLoop ts w).2.energyLevel := by
  induction ts generalizing w with
  | nil => exact hw
  | cons t ts ih =>
    have hmin : (0 : ℚ) ≤ ENERGY_MIN := by norm_num [ENERGY_MIN]
    rw [planLoop_cons] at h ⊢
    split_ifs at h ⊢ with h1 h2
    · simp at h
    · exact ih _ (not_lt.mp h2) h
    · exact ih _ (le_trans hmin (not_lt.mp h1)) h

theorem planLoop_task_energy (ts : List Task) (w : Walk)
    (hw : ∀ c ∈ w.history, c.rest = false → 0 ≤ c.energy) :
    ∀ c ∈ (planLoop ts w).2.history, c.rest = false → 0 ≤ c.energy := by
  refine planLoop_invariant (fun w => ∀ c ∈ w.history, c.rest = false → 0 ≤ c.energy) ts
    ?_ ?_ w hw
  · intro w t _ hw c hc hrest
    simp only [restCommit, List.mem_append, List.mem_singleton] at hc
    rcases hc with hc | hc
    · exact hw c hc hrest
    · rw [hc] at hrest; simp at hrest
  · intro w t _ hw he c hc hrest
    simp only [taskCommit, List.mem_append, List.mem_singleton] at hc
    rcases hc with hc | hc
    · exact hw c hc hrest
    · rw [hc]; exact he

/-- C5. `plan()` returns 0 or 1. It returns 1 exactly when the walk reaches a
task (all tasks before it walked without failure) whose predicted energy is
below 0.2 and whose energy recomputed after the rest commit is negative; it
then stops there: the task list is untouched and the accumulators hold the
rest commit made for that task. On every success from energy 1, the energy
committed after each input task and the final `energyLevel` are at least
0. -/
theorem plan_failure_iff (ts : List Task) (T0 e0 : ℚ) :
    ((Planner.plan ⟨ts, T0, e0⟩).1 = 0 ∨ (Planner.plan ⟨ts, T0, e0⟩).1 = 1) ∧
    ((Planner.plan ⟨ts, T0, e0⟩).1 = 1 ↔
      ∃ pre t post q, ts = pre ++ t :: post ∧ Planner.plan ⟨pre, T0, e0⟩ = (0, q) ∧
        estimate q.energyLevel t < ENERGY_MIN ∧
        estimate (restEnergy q.energyLevel t) t < 0) ∧
    (∀ pre t post q, ts = pre ++ t :: post → Planner.plan ⟨pre, T0, e0⟩ = (0, q) →
        estimate q.energyLevel t < ENERGY_MIN →
        estimate (restEnergy q.energyLevel t) t < 0 →
        Planner.plan ⟨ts, T0, e0⟩ =
          (1, ⟨ts, q.totalTime + calcTaskTime q.energyLevel t, restEnergy q.energyLevel t⟩)) ∧
    (e0 = 1 → (Planner.plan ⟨ts, T0, e0⟩).1 = 0 →
      (∀ c ∈ Planner.planHistory ⟨ts, T0, e0⟩, c.rest = false → 0 ≤ c.energy) ∧
      0 ≤ (Planner.plan ⟨ts, T0, e0⟩).2.energyLevel) := by
  have hst : ∀ l : List Task, (⟨l, T0, e0⟩ : Planner).start = ⟨[], T0, e0, []⟩ := fun _ => rfl
  have hpre : ∀ (pre : List Task) (q : Planner), Planner.plan ⟨pre, T0, e0⟩ = (0, q) →
      (planLoop pre ⟨[], T0, e0, []⟩).1 = 0 ∧
      q.energyLevel = (planLoop pre ⟨[], T0, e0, []⟩).2.energyLevel ∧
      q.totalTime = (planLoop pre ⟨[], T0, e0, []⟩).2.totalTime := by
    intro pre q hq
    have h1 := congrArg Prod.fst hq
    have h2 := congrArg Prod.snd hq
    simp only [Planner.plan, hst] at h1 h2
    refine ⟨h1, ?_, ?_⟩
    · rw [← h2]
    · rw [← h2]
  refine ⟨planLoop_ret _ _, ?_, ?_, ?_⟩
  · rw [plan_fst, hst]
    show (planLoop ts _).1 = 1 ↔ _
    rw [planLoop_fail_iff]
    constructor
    · rintro ⟨pre, t, post, hsp, h0, he, hr⟩
      refine ⟨pre, t, post, (Planner.plan ⟨pre, T0, e0⟩).2, hsp, ?_, he, hr⟩
      exact Prod.ext h0 rfl
    · rintro ⟨pre, t, post, q, hsp, hq, he, hr⟩
      obtain ⟨h0, hqe, -⟩ := hpre pre q hq
      rw [hqe] at he hr
      exact ⟨pre, t, post, hsp, h0, he, hr⟩
  · intro pre t post q hsp hq he hr
    obtain ⟨h0, hqe, hqt⟩ := hpre pre q hq
    rw [hqe] at he hr
    have hf := planLoop_fail_state pre post t _ h0 he hr
    rw [← hsp] at hf
    simp only [Planner.plan, hst, hf, hqe, hqt]
    simp [restCommit, restEnergy]
  · intro he0 hs
    refine ⟨planLoop_task_energy _ _ (by simp [Planner.start]), ?_⟩
    rw [plan_energyLevel]
    refine planLoop_success_energy _ _ ?_ hs
    simp [Planner.start, he0]


/-- Witness of C5: the single task `(100, 1)` fails with the rest commit in
the accumulators, and the successful input `[(20, 3), (5, 3)]` commits no
negative energy. -/
theorem plan_failure_iff_witness :
    Planner.plan ⟨[⟨"1", 100, 1⟩], 0, 1⟩ =
      (1, ⟨[⟨"1", 100, 1⟩], 0 + calcTaskTime 1 ⟨"1", 100, 1⟩, restEnergy 1 ⟨"1", 100, 1⟩⟩) ∧
    ((∀ c ∈ Planner.planHistory ⟨[⟨"1", 20, 3⟩, ⟨"2", 5, 3⟩], 0, 1⟩,
        c.rest = false → 0 ≤ c.energy) ∧
      0 ≤ (Planner.plan ⟨[⟨"1", 20, 3⟩, ⟨"2", 5, 3⟩], 0, 1⟩).2.energyLevel) :=
  ⟨(plan_failure_iff [⟨"1", 100, 1⟩] 0 1).2.2.1 [] ⟨"1", 100, 1⟩ [] ⟨[], 0, 1⟩ rfl
      (by decide!) (by decide!) (by decide!),
    (plan_failure_iff [⟨"1", 20, 3⟩, ⟨"2", 5, 3⟩] 0 1).2.2.2 rfl (by decide!)⟩

theorem calcTaskTime_nonneg (e : ℚ) (t : Task) (he : e ≤ 1) (hE : 0 < t.expectedTime)
    (hb : (1 - t.expectedTime) * t.difficulty * 0.007 ≤ 1) : 0 ≤ calcTaskTime e t := by
  have hform : calcTaskTime e t = t.expectedTime *
      (2 * (1 - e) + (1 - (1 - t.expectedTime) * t.difficulty * 0.007)) := by
    simp only [calcTaskTime, energyLosePerTimeInterval, TIME_INTERVAL, ENERGY_COEF, ENERGY_LOSE]
    ring
  rw [hform]
  apply mul_nonneg hE.le
  linarith

/-- C6, counterexample: the single task of duration 0.5 and difficulty 1000
is planned without failure from energy 1 and time 0 with `taskTime = -1.25`,
which leaves `totalTime = -1.25`. -/
theorem plan_totalTime_negative :
    (∀ t ∈ [(⟨"1", 0.5, 1000⟩ : Task)], 0 < t.expectedTime ∧ 0 ≤ t.difficulty) ∧
    Planner.plan ⟨[⟨"1", 0.5, 1000⟩], 0, 1⟩ = (0, ⟨[⟨"1", 0.5, 1000⟩], -1.25, 1⟩) ∧
    Planner.planHistory ⟨[⟨"1", 0.5, 1000⟩], 0, 1⟩ = [⟨false, -1.25, 1⟩] ∧
    (Planner.plan ⟨[⟨"1", 0.5, 1000⟩], 0, 1⟩).2.totalTime < 0 := by
  decide!

/-- C6, amended. When every task has a positive expected duration `E`, a
non-negative difficulty `d` and `(1 - E) * d * 0.007 ≤ 1` (which holds as soon
as `E ≥ 1`), `plan()` from energy 1 and time 0 leaves a non-negative
`totalTime`, and every `taskTime` it adds to `totalTime` is non-negative. -/
theorem plan_totalTime_nonneg (ts : List Task)
    (h : ∀ t ∈ ts, 0 < t.expectedTime ∧ 0 ≤ t.difficulty ∧
      (1 - t.expectedTime) * t.difficulty * 0.007 ≤ 1) :
    0 ≤ (Planner.plan ⟨ts, 0, 1⟩).2.totalTime ∧
    ∀ c ∈ Planner.planHistory ⟨ts, 0, 1⟩, 0 ≤ c.time := by
  have key := planLoop_invariant
    (fun w => w.energyLevel ≤ 1 ∧ 0 ≤ w.totalTime ∧ ∀ c ∈ w.history, 0 ≤ c.time) ts
    (by
      intro w t ht hw
      have htt := calcTaskTime_nonneg w.energyLevel t hw.1 (h t ht).1 (h t ht).2.2
      refine ⟨calcEnergyLevel_le_one _ _ _, add_nonneg hw.2.1 htt, ?_⟩
      intro c hc
      simp only [restCommit, List.mem_append, List.mem_singleton] at hc
      rcases hc with hc | hc
      · exact hw.2.2 c hc
      · rw [hc]; exact htt)
    (by
      intro w t ht hw _
      have htt := calcTaskTime_nonneg w.energyLevel t hw.1 (h t ht).1 (h t ht).2.2
      refine ⟨calcEnergyLevel_le_one _ _ _, add_nonneg hw.2.1 htt, ?_⟩
      intro c hc
      simp only [taskCommit, List.mem_append, List.mem_singleton] at hc
      rcases hc with hc | hc
      · exact hw.2.2 c hc
      · rw [hc]; exact htt)
    (Planner.start ⟨ts, 0, 1⟩) ⟨le_refl _, le_refl _, by simp [Planner.start]⟩
  exact ⟨key.2.1, key.2.2⟩

/-- Witness of C6 as amended, on the input `[(20, 3), (5, 3)]`. -/
theorem plan_totalTime_nonneg_witness :
    (∀ t ∈ [(⟨"1", 20, 3⟩ : Task), ⟨"2", 5, 3⟩], 0 < t.expectedTime ∧ 0 ≤ t.difficulty ∧
      (1 - t.expectedTime) * t.difficulty * 0.007 ≤ 1) ∧
    0 ≤ (Planner.plan ⟨[⟨"1", 20, 3⟩, ⟨"2", 5, 3⟩], 0, 1⟩).2.totalTime ∧
    ∀ c ∈ Planner.planHistory ⟨[⟨"1", 20, 3⟩, ⟨"2", 5, 3⟩], 0, 1⟩, 0 ≤ c.time :=
  ⟨by decide!, plan_totalTime_nonneg _ (by decide!)⟩

/-- The ghost history accounts for the accumulators: `totalTime` grows by the
sum of the committed times, and `energyLevel` is the energy of the last
commit. -/
theorem planHistory_accounts (p : Planner) :
    p.plan.2.totalTime = p.totalTime + (p.planHistory.map Commit.time).sum ∧
    p.plan.2.energyLevel = (p.planHistory.getLast?.map Commit.energy).getD p.energyLevel := by
  have key := planLoop_invariant
    (fun w => w.totalTime = p.totalTime + (w.history.map Commit.time).sum ∧
      w.energyLevel = (w.history.getLast?.map Commit.energy).getD p.energyLevel) p.taskList
    (by
      intro w t _ hw
      constructor
      · simp [restCommit, hw.1, add_assoc]
      · simp [restCommit])
    (by
      intro w t _ hw _
      constructor
      · simp [taskCommit, hw.1, add_assoc]
      · simp [taskCommit])
    p.start ⟨by simp [Planner.start], by simp [Planner.start]⟩
  exact key
/-! ## The neighbourhood generator -/

theorem foldl_push_eq_map {α β : Type} (g : α → β) (l : List α) (acc : List β) :
    l.foldl (fun acc j => acc ++ [g j]) acc = acc ++ l.map g := by
  induction l generalizing acc with
  | nil => simp
  | cons x xs ih => simp [ih]

theorem foldl_append_eq_flatMap {α β : Type} (g : α → List β) (l : List α) (acc : List β) :
    l.foldl (fun acc i => acc ++ g i) acc = acc ++ l.flatMap g := by
  induction l generalizing acc with
  | nil => simp
  | cons x xs ih => simp [ih]

/-- The nested loops as one comprehension. -/
theorem getNeighbours_eq_flatMap (s : List Task) :
    getNeighbours s = (List.range s.length).flatMap fun i =>
      (List.range' (i + 1) (s.length - (i + 1))).map fun j => swapAt s i j := by
  unfold getNeighbours
  simp only [foldl_push_eq_map]
  rw [foldl_append_eq_flatMap]
  simp

theorem filter_lt_range (i n : Nat) :
    ((List.range n).filter fun j => i < j) = List.range' (i + 1) (n - (i + 1)) := by
  induction n with
  | zero => simp
  | succ n ih =>
    rw [List.range_succ, List.filter_append, ih]
    by_cases h : i < n
    · have e : n + 1 - (i + 1) = (n - (i + 1)) + 1 := by omega
      rw [e, List.range'_concat]
      simp [h]
      omega
    · have e1 : n + 1 - (i + 1) = 0 := by omega
      have e2 : n - (i + 1) = 0 := by omega
      simp [h, e1, e2]

theorem perm_cons_set {α : Type} (x b : α) (xs : List α) (j : Nat) (h : xs[j]? = some b) :
    (b :: xs.set j x).Perm (x :: xs) := by
  induction xs generalizing j with
  | nil => simp at h
  | cons y t ih =>
    cases j with
    | zero =>
      simp at h
      subst h
      simpa using List.Perm.swap x y t
    | succ j =>
      simp at h
      have h1 := ih j h
      exact ((List.Perm.swap y b (t.set j x)).trans (List.Perm.cons y h1)).trans
        (List.Perm.swap x y t)

theorem perm_set_set {α : Type} (s : List α) (i j : Nat) (a b : α) (hij : i < j)
    (ha : s[i]? = some a) (hb : s[j]? = some b) : ((s.set i b).set j a).Perm s := by
  induction s generalizing i j with
  | nil => simp at ha
  | cons x xs ih =>
    cases j with
    | zero => omega
    | succ j =>
      cases i with
      | zero =>
        simp at ha hb
        subst ha
        simpa using perm_cons_set x b xs j hb
      | succ i =>
        simp at ha hb
        simpa using List.Perm.cons x (ih i j (by omega) ha hb)

theorem swapAt_perm (s : List Task) (i j : Nat) (hij : i < j) : (swapAt s i j).Perm s := by
  unfold swapAt
  split
  · next a b ha hb => exact perm_set_set s i j a b hij ha hb
  · exact List.Perm.refl _

theorem swapAt_eq_exchanged (s : List Task) (i j : Nat) (hi : i < s.length)
    (hj : j < s.length) : swapAt s i j = exchanged s i j := by
  unfold swapAt exchanged
  rw [List.getElem?_eq_getElem hi, List.getElem?_eq_getElem hj]
  apply List.ext_getElem
  · simp
  · intro k h1 h2
    simp only [List.getElem_set, List.getElem_ofFn, Option.getD_some]
    by_cases hkj : j = k
    · subst hkj
      by_cases hki : j = i
      · subst hki; simp
      · simp [hki]
    · have hkj' : ¬ k = j := fun h => hkj h.symm
      by_cases hki : i = k
      · subst hki; simp [hkj]
      · have hki' : ¬ k = i := fun h => hki h.symm
        simp [hkj, hki, hki', hkj']

theorem mem_getNeighbours (s x : List Task) (h : x ∈ getNeighbours s) :
    ∃ i j, i < j ∧ j < s.length ∧ x = swapAt s i j := by
  rw [getNeighbours_eq_flatMap] at h
  simp only [List.mem_flatMap, List.mem_range, List.mem_map, List.mem_range'_1] at h
  obtain ⟨i, _, j, ⟨h1, h2⟩, rfl⟩ := h
  exact ⟨i, j, by omega, by omega, rfl⟩

theorem sum_reflect_range (n : Nat) :
    ((List.range n).map fun i => n - (i + 1)).sum * 2 = n * (n - 1) := by
  have h : ∀ k, k ≤ n → ((List.range k).map fun i => n - (i + 1)).sum * 2 + k * (k + 1)
      = 2 * k * n := by
    intro k
    induction k with
    | zero => simp
    | succ k ih =>
      intro hk
      have ih' := ih (by omega)
      rw [List.range_succ, List.map_append, List.sum_append]
      simp only [List.map_cons, List.map_nil, List.sum_cons, List.sum_nil, add_zero]
      obtain ⟨d, rfl⟩ : ∃ d, n = k + 1 + d := ⟨n - (k + 1), by omega⟩
      have e : k + 1 + d - (k + 1) = d := by omega
      rw [e]
      nlinarith [ih']
  have hn := h n (le_refl n)
  cases n with
  | zero => simp
  | succ m =>
    simp only [Nat.add_sub_cancel] at hn ⊢
    nlinarith [hn]

theorem length_getNeighbours (s : List Task) :
    (getNeighbours s).length = s.length * (s.length - 1) / 2 := by
  have h : (getNeighbours s).length =
      ((List.range s.length).map fun i => s.length - (i + 1)).sum := by
    rw [getNeighbours_eq_flatMap, List.length_flatMap]
    congr 1
    apply List.map_congr_left
    intro i _
    simp
  rw [h, ← sum_reflect_range s.length, Nat.mul_div_cancel _ (by norm_num)]

/-- While the product `n * (n - 1)` fits in a 32-bit `int`, that is up to
`n = 46341`, `numChoose2 n` is `n * (n - 1) / 2`. -/
theorem numChoose2_eq (n : Nat) (h : n ≤ 46341) :
    numChoose2 n = ((n * (n - 1) / 2 : Nat) : Int) := by
  unfold numChoose2 wrapInt32
  have h1 : (n : Int) * ((n : Int) - 1) < 2147483648 := by
    cases n with
    | zero => simp
    | succ m =>
      have hm : (m : Int) ≤ 46340 := by omega
      have h0 : (0 : Int) ≤ m := by omega
      push_cast
      nlinarith
  have h2 : 0 ≤ (n : Int) * ((n : Int) - 1) := by
    cases n with
    | zero => simp
    | succ m =>
      have h0 : (0 : Int) ≤ m := by omega
      push_cast
      nlinarith
  have hw : ((n : Int) * ((n : Int) - 1) + 2147483648) % 4294967296 - 2147483648
      = (n : Int) * ((n : Int) - 1) := by
    rw [Int.emod_eq_of_lt (by omega) (by omega)]
    omega
  rw [hw]
  cases n with
  | zero => simp
  | succ m =>
    have e : ((m + 1 : Nat) : Int) * (((m + 1 : Nat) : Int) - 1)
        = (((m + 1) * (m + 1 - 1) : Nat) : Int) := by
      push_cast; simp
    rw [e, Int.tdiv_eq_ediv (by omega) (by norm_num)]
    norm_cast

/-- From `n = 46342` on the 32-bit product wraps and `numChoose2` is no longer
the number of pairs. -/
theorem numChoose2_wraps :
    numChoose2 46341 = 1073720970 ∧ numChoose2 46342 = -1073716337 ∧
    numChoose2 65536 = -32768 := by
  decide

/-- C7. For an input of length `n`, `getNeighbours` returns exactly
`n * (n - 1) / 2` sequences, each of length `n` and a permutation of the
input; for `n < 2` it returns none. The count is the value of `numChoose2 n`
as long as the 32-bit product of `numChoose2` does not overflow, that is for
`n ≤ 46341`. -/
theorem getNeighbours_count_perm (s : List Task) :
    (getNeighbours s).length = s.length * (s.length - 1) / 2 ∧
    (s.length ≤ 46341 → ((getNeighbours s).length : Int) = numChoose2 s.length) ∧
    (∀ x ∈ getNeighbours s, x.length = s.length ∧ x.Perm s) ∧
    (s.length < 2 → getNeighbours s = []) := by
  have hlen := length_getNeighbours s
  refine ⟨hlen, ?_, ?_, ?_⟩
  · intro hb
    rw [hlen, numChoose2_eq s.length hb]
  · intro x hx
    obtain ⟨i, j, hij, _, rfl⟩ := mem_getNeighbours s x hx
    exact ⟨(swapAt_perm s i j hij).length_eq, swapAt_perm s i j hij⟩
  · intro h2
    apply List.eq_nil_of_length_eq_zero
    rw [hlen]
    have : s.length = 0 ∨ s.length = 1 := by omega
    rcases this with h | h <;> simp [h]

theorem getNeighbours_head (a b : Task) (rest : List Task) :
    (getNeighbours (a :: b :: rest))[0]? = some (b :: a :: rest) := by
  rw [getNeighbours_eq_flatMap]
  simp [List.range_succ_eq_map, List.range'_succ, swapAt]

theorem getNeighbours_length_mem (s x : List Task) (h : x ∈ getNeighbours s) :
    x.length = s.length := by
  obtain ⟨i, j, hij, _, rfl⟩ := mem_getNeighbours s x h
  exact (swapAt_perm s i j hij).length_eq

/-- C8. `getNeighbours s` is the list, over the position pairs `(i, j)` with
`0 ≤ i < j < n` in ascending-`i`-then-ascending-`j` order, of `s` with the
elements at positions `i` and `j` exchanged and the other positions unchanged;
when `s` has at least two elements its element 0 is `s` with the first two
elements swapped. -/
theorem getNeighbours_eq_spec (s : List Task) (a b : Task) (rest : List Task) :
    getNeighbours s = neighboursSpec s ∧
    (getNeighbours (a :: b :: rest))[0]? = some (b :: a :: rest) := by
  constructor
  · rw [getNeighbours_eq_flatMap, neighboursSpec, positionPairs, List.map_flatMap]
    apply List.flatMap_congr
    intro i hi
    rw [filter_lt_range, List.map_map]
    apply List.map_congr_left
    intro j hj
    simp only [List.mem_range, List.mem_range'_1] at hi hj
    exact swapAt_eq_exchanged s i j hi (by omega)
  · exact getNeighbours_head a b rest

/-! ## Lemmas on the main loop of `tabuSearch` -/

theorem tabuRun_zero (p : Planner) : tabuRun p 0 = some (tabuInit p) := rfl

theorem tabuRun_succ (p : Planner) (k : Nat) :
    tabuRun p (k + 1) = (tabuRun p k).bind fun st => tabuIteration st k := by
  unfold tabuRun
  rw [List.range_succ, List.foldlM_append]
  cases (List.range k).foldlM tabuIteration (tabuInit p) with
  | none => rfl
  | some st =>
    simp only [Option.bind_eq_bind, Option.some_bind, List.foldlM_cons, List.foldlM_nil]
    cases tabuIteration st k <;> rfl

theorem candidateStep_snd (tabuList : List (List Task)) (st : Planner × List Task)
    (candidate : List Task) :
    (candidateStep tabuList st candidate).2 = st.2 ∨
      (candidateStep tabuList st candidate).2 = candidate := by
  unfold candidateStep
  simp only
  split_ifs <;> first | exact Or.inl rfl | exact Or.inr rfl

theorem foldl_candidateStep_snd (tabuList : List (List Task)) (l : List (List Task))
    (st : Planner × List Task) :
    (l.foldl (candidateStep tabuList) st).2 = st.2 ∨
      (l.foldl (candidateStep tabuList) st).2 ∈ l := by
  induction l generalizing st with
  | nil => exact Or.inl rfl
  | cons c l ih =>
    rw [List.foldl_cons]
    rcases ih (candidateStep tabuList st c) with h | h
    · rcases candidateStep_snd tabuList st c with h1 | h1
      · exact Or.inl (h.trans h1)
      · exact Or.inr (by rw [h, h1]; exact List.mem_cons_self _ _)
    · exact Or.inr (List.mem_cons_of_mem _ h)

theorem searchNeighbourhood_eq (cur : Planner) (tabuList : List (List Task))
    (first : List Task) (h : (getNeighbours cur.taskList)[0]? = some first) :
    searchNeighbourhood cur tabuList =
      some ((getNeighbours cur.taskList).foldl (candidateStep tabuList)
        ((Planner.plan { cur with taskList := first }).2, first)) := by
  unfold searchNeighbourhood
  simp only [h]

/-- On a task list of at least two tasks the neighbourhood search succeeds,
and the raw solution it hands to the next iteration is one of the
neighbours. -/
theorem searchNeighbourhood_some (cur : Planner) (tabuList : List (List Task))
    (h : 2 ≤ cur.taskList.length) :
    ∃ r, searchNeighbourhood cur tabuList = some r ∧ r.2 ∈ getNeighbours cur.taskList := by
  obtain ⟨a, b, rest, hab⟩ : ∃ a b rest, cur.taskList = a :: b :: rest := by
    match hl : cur.taskList, h with
    | a :: b :: rest, _ => exact ⟨a, b, rest, rfl⟩
  have hh : (getNeighbours cur.taskList)[0]? = some (b :: a :: rest) := by
    rw [hab]; exact getNeighbours_head a b rest
  have hmem : (b :: a :: rest) ∈ getNeighbours cur.taskList :=
    List.getElem?_mem hh
  refine ⟨_, searchNeighbourhood_eq cur tabuList _ hh, ?_⟩
  rcases foldl_candidateStep_snd tabuList (getNeighbours cur.taskList)
    ((Planner.plan { cur with taskList := b :: a :: rest }).2, b :: a :: rest) with h1 | h1
  · rw [h1]; exact hmem
  · exact h1

theorem searchNeighbourhood_none (cur : Planner) (tabuList : List (List Task))
    (h : cur.taskList.length < 2) : searchNeighbourhood cur tabuList = none := by
  have hn : getNeighbours cur.taskList = [] := by
    apply List.eq_nil_of_length_eq_zero
    rw [length_getNeighbours]
    have : cur.taskList.length = 0 ∨ cur.taskList.length = 1 := by omega
    rcases this with h | h <;> simp [h]
  unfold searchNeighbourhood
  simp [hn]


/-- One iteration from a state whose entry `k` is an unplanned planner and
whose raw solution has at least two tasks: the neighbourhood of the raw
solution is searched, entry `k` receives the result and a fresh planner is
appended behind it. -/
theorem tabuIteration_step (st : TabuState) (k : Nat)
    (hlen : st.bestSolutionsList.length = k + 1)
    (hcur : ∃ tl, st.bestSolutionsList[k]? = some ⟨tl, 0, 1⟩ ∧
      (k = 0 → tl = st.previousRawSolution) ∧ (0 < k → tl = []))
    (hn : 2 ≤ st.previousRawSolution.length) :
    ∃ r, searchNeighbourhood ⟨st.previousRawSolution, 0, 1⟩ st.tabuList = some r ∧
      r.2 ∈ getNeighbours st.previousRawSolution ∧
      tabuIteration st k = some
        { bestSolutionsList := (st.bestSolutionsList ++ [Planner.new]).set k r.1
          tabuList :=
            if (st.tabuList ++ [r.1.taskList]).length ≥ TABU_MAX_SIZE
            then (st.tabuList ++ [r.1.taskList]).tail else st.tabuList ++ [r.1.taskList]
          previousRawSolution := r.2 } := by
  obtain ⟨tl, htl, h0, -⟩ := hcur
  obtain ⟨r, hr, hmem⟩ := searchNeighbourhood_some ⟨st.previousRawSolution, 0, 1⟩
    st.tabuList hn
  refine ⟨r, hr, hmem, ?_⟩
  have hget : (st.bestSolutionsList ++ [Planner.new])[k]? = some ⟨tl, 0, 1⟩ := by
    rw [List.getElem?_append_left (by omega)]
    exact htl
  have hcur0 : (if k > 0 then
      { (⟨tl, 0, 1⟩ : Planner) with taskList := st.previousRawSolution }
      else ⟨tl, 0, 1⟩) = (⟨st.previousRawSolution, 0, 1⟩ : Planner) := by
    split_ifs with hk
    · rfl
    · rw [h0 (by omega)]
  unfold tabuIteration
  simp only [hget, hcur0, hr]

/-- The invariant of the main loop on an input of at least two tasks: after
`k` iterations the list holds `k + 1` planners, the last one still unplanned (and, after the
first iteration, without task),
and the raw solution has the length of the input. -/
theorem tabuRun_invariant (p : Planner) (hn : 2 ≤ p.taskList.length) (k : Nat) :
    ∃ st, tabuRun p k = some st ∧ st.bestSolutionsList.length = k + 1 ∧
      st.previousRawSolution.length = p.taskList.length ∧
      ∃ tl, st.bestSolutionsList[k]? = some ⟨tl, 0, 1⟩ ∧
        (k = 0 → tl = st.previousRawSolution) ∧ (0 < k → tl = []) := by
  induction k with
  | zero =>
    exact ⟨tabuInit p, rfl, rfl, rfl, p.taskList, rfl, fun _ => rfl, fun h => absurd h (by omega)⟩
  | succ k ih =>
    obtain ⟨st, hst, hlen, hprev, hcur⟩ := ih
    obtain ⟨r, -, hmem, hit⟩ := tabuIteration_step st k hlen hcur (by omega)
    refine ⟨_, by rw [tabuRun_succ, hst]; exact hit, ?_, ?_, [], ?_, ?_, fun _ => rfl⟩
    · simp [hlen]
    · exact (getNeighbours_length_mem _ _ hmem).trans hprev
    · show ((st.bestSolutionsList ++ [Planner.new]).set k r.1)[k + 1]? = some ⟨[], 0, 1⟩
      rw [List.getElem?_set_ne (by omega), List.getElem?_append_right (by omega), hlen]
      simp [Planner.new]
    · intro h; omega

/-- What iteration `k` leaves in entry `k` is the result of its neighbourhood
search. -/
theorem tabuRun_entry_new (p : Planner) (hn : 2 ≤ p.taskList.length) (k : Nat) :
    ∃ st r, tabuRun p k = some st ∧
      searchNeighbourhood ⟨st.previousRawSolution, 0, 1⟩ st.tabuList = some r ∧
      (tabuRun p (k + 1)).bind (fun st1 => st1.bestSolutionsList[k]?) = some r.1 := by
  obtain ⟨st, hst, hlen, hprev, hcur⟩ := tabuRun_invariant p hn k
  obtain ⟨r, hr, -, hit⟩ := tabuIteration_step st k hlen hcur (by omega)
  refine ⟨st, r, hst, hr, ?_⟩
  rw [tabuRun_succ, hst]
  simp only [Option.some_bind, hit]
  rw [List.getElem?_set_self (by simp; omega)]

/-- Later iterations leave the entries before their own untouched. -/
theorem tabuRun_entry_stable (p : Planner) (hn : 2 ≤ p.taskList.length) (k d : Nat) :
    (tabuRun p (k + 1 + d)).bind (fun st => st.bestSolutionsList[k]?) =
      (tabuRun p (k + 1)).bind (fun st => st.bestSolutionsList[k]?) := by
  induction d with
  | zero => rfl
  | succ d ih =>
    obtain ⟨st, hst, hlen, hprev, hcur⟩ := tabuRun_invariant p hn (k + 1 + d)
    obtain ⟨r, -, -, hit⟩ := tabuIteration_step st (k + 1 + d) hlen hcur (by omega)
    rw [← ih, ← Nat.add_assoc, tabuRun_succ, hst]
    simp only [Option.some_bind, hit]
    rw [List.getElem?_set_ne (by omega), List.getElem?_append_left (by omega)]

theorem tabuSearch_entry (p : Planner) (hn : 2 ≤ p.taskList.length) (k : Nat)
    (hk : k < TABU_SEARCH_COUNT) :
    (tabuSearch p).bind (fun l => l[k]?) =
      (tabuRun p (k + 1)).bind (fun st => st.bestSolutionsList[k]?) := by
  obtain ⟨d, hd⟩ : ∃ d, TABU_SEARCH_COUNT = k + 1 + d :=
    ⟨TABU_SEARCH_COUNT - (k + 1), by omega⟩
  rw [← tabuRun_entry_stable p hn k d, ← hd]
  unfold tabuSearch
  cases tabuRun p TABU_SEARCH_COUNT <;> rfl

/-- C9, the code on inputs of fewer than two tasks: the first iteration reads
`neighbourhood[0]` in an empty neighbourhood, outside the vector, and
`tabuSearch` produces no trace. -/
theorem tabuSearch_short_input (p : Planner) (h : p.taskList.length < 2) :
    tabuSearch p = none := by
  have h1 : tabuIteration (tabuInit p) 0 = none := by
    have hs := searchNeighbourhood_none ⟨p.taskList, 0, 1⟩ [p.taskList] h
    unfold tabuIteration
    simp only [tabuInit, Planner.new, List.singleton_append, List.getElem?_cons_zero,
      gt_iff_lt, lt_self_iff_false, if_false, hs]
  unfold tabuSearch tabuRun
  rw [TABU_SEARCH_COUNT, List.range_succ_eq_map, List.foldlM_cons, h1]
  rfl

/-- Witness of C9: the single task `(2, 0.5)`. -/
theorem tabuSearch_short_input_witness :
    (Planner.mk [⟨"1", 2, 0.5⟩] 0 1).taskList.length < 2 ∧
    tabuSearch ⟨[⟨"1", 2, 0.5⟩], 0, 1⟩ = none :=
  ⟨by decide, tabuSearch_short_input _ (by decide)⟩

/-- C10, counterexample: on the input `[(2, 0.5), (3, 0.5)]` entry 0 of the
returned list is not the seed `(input, 0, 1)` but the planned result of the
first iteration, and entry 200 is an empty planner. -/
theorem tabuSearch_entry_zero_not_seed :
    (tabuSearch ⟨[⟨"1", 2, 0.5⟩, ⟨"2", 3, 0.5⟩], 0, 1⟩).bind (fun l => l[0]?) =
      some ⟨[⟨"2", 3, 0.5⟩, ⟨"1", 2, 0.5⟩], 5.070294, 0.982253971⟩ ∧
    (tabuSearch ⟨[⟨"1", 2, 0.5⟩, ⟨"2", 3, 0.5⟩], 0, 1⟩).bind (fun l => l[0]?) ≠
      some ⟨[⟨"1", 2, 0.5⟩, ⟨"2", 3, 0.5⟩], 0, 1⟩ := by
  rw [tabuSearch_entry _ (by decide) 0 (by decide)]
  decide!

/-- C10, amended. On an input of at least two tasks `tabuSearch` returns a
list of exactly 201 planners. Entry `k`, for `k` from 0 to 199, is the result
of iteration `k + 1`: the planner left by the search of the neighbourhood of
the raw solution current after `k` iterations (the input for `k = 0`, so that
entry 0 is the first iteration's result and not the seed). Entry 200 is the
planner appended by the last iteration and never planned: no task, time 0,
energy 1. -/
theorem tabuSearch_trace (p : Planner) (hn : 2 ≤ p.taskList.length) :
    ∃ l, tabuSearch p = some l ∧ l.length = 201 ∧
      l[200]? = some ⟨[], 0, 1⟩ ∧
      (∃ r, searchNeighbourhood ⟨p.taskList, 0, 1⟩ [p.taskList] = some r ∧
        l[0]? = some r.1) ∧
      ∀ k, k < 200 → ∃ st r, tabuRun p k = some st ∧
        searchNeighbourhood ⟨st.previousRawSolution, 0, 1⟩ st.tabuList = some r ∧
        l[k]? = some r.1 := by
  obtain ⟨st, hst, hlen, -, tl, htl, -, hnil⟩ := tabuRun_invariant p hn TABU_SEARCH_COUNT
  have hs : tabuSearch p = some st.bestSolutionsList := by
    unfold tabuSearch; rw [hst]; rfl
  have hall : ∀ k, k < 200 → ∃ st0 r, tabuRun p k = some st0 ∧
      searchNeighbourhood ⟨st0.previousRawSolution, 0, 1⟩ st0.tabuList = some r ∧
      st.bestSolutionsList[k]? = some r.1 := by
    intro k hk
    obtain ⟨st0, r, h0, hr, he⟩ := tabuRun_entry_new p hn k
    refine ⟨st0, r, h0, hr, ?_⟩
    have := tabuSearch_entry p hn k hk
    rw [hs, he] at this
    exact this
  refine ⟨st.bestSolutionsList, hs, hlen, ?_, ?_, hall⟩
  · have h200 : TABU_SEARCH_COUNT = 200 := rfl
    rw [h200] at htl
    rw [htl]
    rw [hnil (by decide)]
  · obtain ⟨st0, r, h0, hr, he⟩ := hall 0 (by norm_num)
    rw [tabuRun_zero] at h0
    have h0' : st0 = tabuInit p := (Option.some.inj h0).symm
    subst h0'
    exact ⟨r, hr, he⟩

/-- Witness of C10 as amended, on the input `[(2, 0.5), (3, 0.5)]`. -/
theorem tabuSearch_trace_witness :
    2 ≤ (Planner.mk [⟨"1", 2, 0.5⟩, ⟨"2", 3, 0.5⟩] 0 1).taskList.length ∧
    ∃ l, tabuSearch ⟨[⟨"1", 2, 0.5⟩, ⟨"2", 3, 0.5⟩], 0, 1⟩ = some l ∧ l.length = 201 ∧
      l[200]? = some ⟨[], 0, 1⟩ ∧
      (∃ r, searchNeighbourhood ⟨[⟨"1", 2, 0.5⟩, ⟨"2", 3, 0.5⟩], 0, 1⟩
          [[⟨"1", 2, 0.5⟩, ⟨"2", 3, 0.5⟩]] = some r ∧ l[0]? = some r.1) ∧
      ∀ k, k < 200 → ∃ st r,
        tabuRun ⟨[⟨"1", 2, 0.5⟩, ⟨"2", 3, 0.5⟩], 0, 1⟩ k = some st ∧
        searchNeighbourhood ⟨st.previousRawSolution, 0, 1⟩ st.tabuList = some r ∧
        l[k]? = some r.1 :=
  ⟨by decide, tabuSearch_trace ⟨[⟨"1", 2, 0.5⟩, ⟨"2", 3, 0.5⟩], 0, 1⟩ (by decide)⟩

/-- Witness of C7 on a sequence of three tasks: three neighbours, the value
of `numChoose2 3`. -/
theorem getNeighbours_count_perm_witness :
    [(⟨"1", 2, 0.5⟩ : Task), ⟨"2", 3, 0.5⟩, ⟨"3", 4, 1⟩].length ≤ 46341 ∧
    (getNeighbours [⟨"1", 2, 0.5⟩, ⟨"2", 3, 0.5⟩, ⟨"3", 4, 1⟩]).length = 3 * (3 - 1) / 2 ∧
    ((getNeighbours [⟨"1", 2, 0.5⟩, ⟨"2", 3, 0.5⟩, ⟨"3", 4, 1⟩]).length : Int) =
      numChoose2 [(⟨"1", 2, 0.5⟩ : Task), ⟨"2", 3, 0.5⟩, ⟨"3", 4, 1⟩].length ∧
    (∀ x ∈ getNeighbours [⟨"1", 2, 0.5⟩, ⟨"2", 3, 0.5⟩, ⟨"3", 4, 1⟩],
      x.length = 3 ∧ x.Perm [⟨"1", 2, 0.5⟩, ⟨"2", 3, 0.5⟩, ⟨"3", 4, 1⟩]) :=
  ⟨by decide,
    (getNeighbours_count_perm [⟨"1", 2, 0.5⟩, ⟨"2", 3, 0.5⟩, ⟨"3", 4, 1⟩]).1,
    (getNeighbours_count_perm [⟨"1", 2, 0.5⟩, ⟨"2", 3, 0.5⟩, ⟨"3", 4, 1⟩]).2.1 (by decide),
    (getNeighbours_count_perm [⟨"1", 2, 0.5⟩, ⟨"2", 3, 0.5⟩, ⟨"3", 4, 1⟩]).2.2.1⟩


/-! ## The tabu list -/

/-- After `k` iterations on an input of at least two tasks the tabu list
holds `min (k + 1) 29` sequences. -/
theorem tabuRun_tabuList_length (p : Planner) (hn : 2 ≤ p.taskList.length) (k : Nat) :
    ∃ st, tabuRun p k = some st ∧ st.tabuList.length = min (k + 1) 29 := by
  induction k with
  | zero => exact ⟨tabuInit p, rfl, rfl⟩
  | succ k ih =>
    obtain ⟨st, hst, hlen⟩ := ih
    obtain ⟨st0, hst0, hl0, hprev, hcur⟩ := tabuRun_invariant p hn k
    have hEq : st0 = st := Option.some.inj (hst0.symm.trans hst)
    subst hEq
    obtain ⟨r, -, -, hit⟩ := tabuIteration_step st0 k hl0 hcur (by omega)
    refine ⟨_, by rw [tabuRun_succ, hst]; exact hit, ?_⟩
    simp only [TABU_MAX_SIZE, List.length_append, List.length_singleton, ge_iff_le]
    split_ifs with h30
    · simp only [List.length_tail, List.length_append, List.length_singleton]
      omega
    · simp only [List.length_append, List.length_singleton]
      omega

/-- C11. On an input of at least two tasks, at every point of `tabuSearch`
the tabu list holds at most `TABU_MAX_SIZE = 30` sequences: at most 29 between
iterations and at most 30 between the push and the eviction inside an
iteration. Each iteration appends the sequence `x` of its recorded result at
the back; when that brings the size to 30 the entry removed is the front of
the list, the oldest one, and the others keep their order. -/
theorem tabuList_bounded (p : Planner) (hn : 2 ≤ p.taskList.length) (k : Nat) :
    ∃ st st1 x, tabuRun p k = some st ∧ tabuRun p (k + 1) = some st1 ∧
      (tabuRun p (k + 1)).bind (fun s => s.bestSolutionsList[k]?.map Planner.taskList) = some x ∧
      st.tabuList.length ≤ 29 ∧
      (st.tabuList ++ [x]).length ≤ TABU_MAX_SIZE ∧
      st1.tabuList.length ≤ 29 ∧
      ((st.tabuList.length < 29 ∧ st1.tabuList = st.tabuList ++ [x]) ∨
        (st.tabuList.length = 29 ∧ ∃ oldest others, st.tabuList = oldest :: others ∧
          st1.tabuList = others ++ [x])) := by
  obtain ⟨st, hst, hlen⟩ := tabuRun_tabuList_length p hn k
  obtain ⟨st0, hst0, hl0, hprev, hcur⟩ := tabuRun_invariant p hn k
  have hEq : st0 = st := Option.some.inj (hst0.symm.trans hst)
  subst hEq
  obtain ⟨r, -, -, hit⟩ := tabuIteration_step st0 k hl0 hcur (by omega)
  have hst1 := (show tabuRun p (k + 1) = tabuIteration st0 k by
    rw [tabuRun_succ, hst]; rfl).trans hit
  obtain ⟨st2, hst2, hlen2⟩ := tabuRun_tabuList_length p hn (k + 1)
  refine ⟨st0, _, r.1.taskList, hst, hst1, ?_, by omega, ?_, ?_, ?_⟩
  · rw [hst1]
    simp only [Option.some_bind]
    rw [List.getElem?_set_self (by simp; omega)]
    rfl
  · simp only [TABU_MAX_SIZE, List.length_append, List.length_singleton]
    omega
  · have hEq2 := Option.some.inj (hst1.symm.trans hst2)
    rw [hEq2, hlen2]
    omega
  · by_cases h29 : st0.tabuList.length < 29
    · left
      refine ⟨h29, ?_⟩
      have : ¬ (st0.tabuList ++ [r.1.taskList]).length ≥ TABU_MAX_SIZE := by
        simp only [TABU_MAX_SIZE, List.length_append, List.length_singleton]
        omega
      simp only [if_neg this]
    · right
      have hl29 : st0.tabuList.length = 29 := by omega
      refine ⟨hl29, ?_⟩
      match hm : st0.tabuList, hl29 with
      | oldest :: others, _ =>
        refine ⟨oldest, others, rfl, ?_⟩
        have : (oldest :: others ++ [r.1.taskList]).length ≥ TABU_MAX_SIZE := by
          rw [← hm]
          simp only [TABU_MAX_SIZE, List.length_append, List.length_singleton]
          omega
        simp only [if_pos this]
        rfl

/-- Witness of C11: the first iteration on the input `[(2, 0.5), (3, 0.5)]`. -/
theorem tabuList_bounded_witness :
    2 ≤ (Planner.mk [⟨"1", 2, 0.5⟩, ⟨"2", 3, 0.5⟩] 0 1).taskList.length ∧
    ∃ st st1 x, tabuRun ⟨[⟨"1", 2, 0.5⟩, ⟨"2", 3, 0.5⟩], 0, 1⟩ 0 = some st ∧
      tabuRun ⟨[⟨"1", 2, 0.5⟩, ⟨"2", 3, 0.5⟩], 0, 1⟩ (0 + 1) = some st1 ∧
      (tabuRun ⟨[⟨"1", 2, 0.5⟩, ⟨"2", 3, 0.5⟩], 0, 1⟩ (0 + 1)).bind
        (fun s => s.bestSolutionsList[0]?.map Planner.taskList) = some x ∧
      st.tabuList.length ≤ 29 ∧
      (st.tabuList ++ [x]).length ≤ TABU_MAX_SIZE ∧
      st1.tabuList.length ≤ 29 ∧
      ((st.tabuList.length < 29 ∧ st1.tabuList = st.tabuList ++ [x]) ∨
        (st.tabuList.length = 29 ∧ ∃ oldest others, st.tabuList = oldest :: others ∧
          st1.tabuList = others ++ [x])) :=
  ⟨by decide, tabuList_bounded ⟨[⟨"1", 2, 0.5⟩, ⟨"2", 3, 0.5⟩], 0, 1⟩ (by decide) 0⟩

/-! ## Zero-difficulty tasks -/

theorem calcTaskTime_zero_difficulty (e : ℚ) (t : Task) (hd : t.difficulty = 0) :
    calcTaskTime e t = t.expectedTime * (1 + 2 * (1 - e)) := by
  simp only [calcTaskTime, energyLosePerTimeInterval, TIME_INTERVAL, ENERGY_COEF, hd]
  ring

theorem calcEnergyLevel_zero_difficulty (e tt : ℚ) (t : Task) (hd : t.difficulty = 0) :
    calcEnergyLevel e t tt = min 1 (e + 0.01 * tt) := by
  have hr : ENERGY_REGEN = 0.01 := rfl
  simp only [calcEnergyLevel, hd, ne_eq, not_true_eq_false, if_false, hr]
  rw [min_def]
  split_ifs <;> linarith

/-- C13. A task of difficulty 0 and positive expected duration, evaluated at
a current energy `e` in `[0, 1]`: the energy computed by `calcEnergyLevel` from
`calcTaskTime` is `min(1, e + 0.01 * taskTime)` and is not lower than `e`. -/
theorem zero_difficulty_regenerates (t : Task) (e : ℚ) (hd : t.difficulty = 0)
    (hE : 0 < t.expectedTime) (_h0 : 0 ≤ e) (h1 : e ≤ 1) :
    calcEnergyLevel e t (calcTaskTime e t) = min 1 (e + 0.01 * calcTaskTime e t) ∧
    e ≤ calcEnergyLevel e t (calcTaskTime e t) := by
  have hc := calcEnergyLevel_zero_difficulty e (calcTaskTime e t) t hd
  refine ⟨hc, ?_⟩
  have htt : 0 ≤ calcTaskTime e t := by
    rw [calcTaskTime_zero_difficulty e t hd]
    apply mul_nonneg hE.le
    linarith
  rw [hc]
  apply le_min h1
  linarith

/-- Witness of C13, the scenario of the specification: duration 5 at energy
0.5 has `taskTime = 10` and gives `0.5 + 0.01 * 10 = 0.6`. -/
theorem zero_difficulty_regenerates_witness :
    calcTaskTime 0.5 ⟨"1", 5, 0⟩ = 10 ∧
    calcEnergyLevel 0.5 ⟨"1", 5, 0⟩ (calcTaskTime 0.5 ⟨"1", 5, 0⟩) = 0.6 ∧
    calcEnergyLevel 0.5 ⟨"1", 5, 0⟩ (calcTaskTime 0.5 ⟨"1", 5, 0⟩) =
      min 1 (0.5 + 0.01 * calcTaskTime 0.5 ⟨"1", 5, 0⟩) ∧
    (0.5 : ℚ) ≤ calcEnergyLevel 0.5 ⟨"1", 5, 0⟩ (calcTaskTime 0.5 ⟨"1", 5, 0⟩) :=
  ⟨by decide!, by decide!,
    zero_difficulty_regenerates ⟨"1", 5, 0⟩ 0.5 rfl (by decide!) (by decide!) (by decide!)⟩

theorem planLoop_energy_le_one (ts : List Task) (w : Walk) (hw : w.energyLevel ≤ 1) :
    (planLoop ts w).2.energyLevel ≤ 1 :=
  planLoop_invariant (fun w => w.energyLevel ≤ 1) ts
    (fun _ _ _ _ => calcEnergyLevel_le_one _ _ _)
    (fun _ _ _ _ _ => calcEnergyLevel_le_one _ _ _) w hw

/-- The walk of `pre ++ [t]` when `pre` is walked without failure and the
estimate for `t` is not below the threshold: `t` is committed directly. -/
theorem planLoop_snoc_no_rest (pre : List Task) (t : Task) (w : Walk)
    (h0 : (planLoop pre w).1 = 0)
    (he : ENERGY_MIN ≤ estimate (planLoop pre w).2.energyLevel t) :
    planLoop (pre ++ [t]) w =
      (0, taskCommit (planLoop pre w).2 t (calcTaskTime (planLoop pre w).2.energyLevel t)
        (estimate (planLoop pre w).2.energyLevel t)) := by
  rw [planLoop_append, if_pos h0, planLoop_cons, if_neg (not_lt.mpr he), planLoop_nil]

/-- C14, counterexample: in the input `[(85, 1), (1, 0)]` the first task
leaves energy 0.05514, the zero-difficulty task is predicted at 0.0840372,
below 0.2, and a rest task is inserted before it. -/
theorem rest_before_zero_difficulty :
    Planner.plan ⟨[⟨"1", 85, 1⟩, ⟨"2", 1, 0⟩], 0, 1⟩ =
      (0, ⟨[⟨"REST", 0, 0⟩, ⟨"1", 85, 1⟩, ⟨"REST", 94.486, 0⟩, ⟨"2", 1, 0⟩],
        275.6816456, 0.112356456⟩) ∧
    (Planner.plan ⟨[⟨"1", 85, 1⟩], 0, 1⟩).2.energyLevel = 0.05514 ∧
    estimate 0.05514 ⟨"2", 1, 0⟩ = 0.0840372 := by
  decide!

/-- C14, amended. Planning from energy 1 and time 0, when the tasks `pre` are
planned without failure and leave the planner `q`: a task whose predicted
energy is at least 0.2 is appended without a rest task; and a task of
difficulty 0 and non-negative duration reached at an energy of at least 0.2
has a predicted energy of at least 0.2. -/
theorem no_rest_when_energy_kept (pre : List Task) (t : Task) (q : Planner)
    (hq : Planner.plan ⟨pre, 0, 1⟩ = (0, q)) :
    (ENERGY_MIN ≤ estimate q.energyLevel t →
      Planner.plan ⟨pre ++ [t], 0, 1⟩ =
        (0, ⟨q.taskList ++ [t], q.totalTime + calcTaskTime q.energyLevel t,
          estimate q.energyLevel t⟩)) ∧
    (t.difficulty = 0 → 0 ≤ t.expectedTime → ENERGY_MIN ≤ q.energyLevel →
      ENERGY_MIN ≤ estimate q.energyLevel t) := by
  have h1 := congrArg Prod.fst hq
  have h2 := congrArg Prod.snd hq
  have hst : ∀ l : List Task, (⟨l, 0, 1⟩ : Planner).start = ⟨[], 0, 1, []⟩ := fun _ => rfl
  simp only [Planner.plan, hst] at h1 h2
  simp only [h1, if_true] at h2
  have hqe : q.energyLevel = (planLoop pre ⟨[], 0, 1, []⟩).2.energyLevel := by rw [← h2]
  have hqt : q.totalTime = (planLoop pre ⟨[], 0, 1, []⟩).2.totalTime := by rw [← h2]
  have hql : q.taskList = (planLoop pre ⟨[], 0, 1, []⟩).2.temp := by rw [← h2]
  constructor
  · intro he
    rw [hqe] at he
    have hl := planLoop_snoc_no_rest pre t _ h1 he
    simp only [Planner.plan, hst, hl, hqe, hqt, hql]
    simp [taskCommit]
  · intro hd hE he
    have hle : q.energyLevel ≤ 1 := by
      rw [hqe]; exact planLoop_energy_le_one pre _ (le_refl 1)
    unfold estimate
    rw [calcEnergyLevel_zero_difficulty _ _ t hd, calcTaskTime_zero_difficulty _ t hd]
    have hmin : ENERGY_MIN ≤ 1 := by norm_num [ENERGY_MIN]
    apply le_min hmin
    have : 0 ≤ t.expectedTime * (1 + 2 * (1 - q.energyLevel)) := by
      apply mul_nonneg hE
      linarith
    linarith

/-- Witness of C14 as amended: the zero-difficulty task `(5, 0)` after the
task `(2, 0.5)`. -/
theorem no_rest_when_energy_kept_witness :
    Planner.plan ⟨[⟨"1", 2, 0.5⟩], 0, 1⟩ = (0, ⟨[⟨"1", 2, 0.5⟩], 2.007, 0.9929755⟩) ∧
    ENERGY_MIN ≤ estimate 0.9929755 ⟨"2", 5, 0⟩ ∧
    Planner.plan ⟨[⟨"1", 2, 0.5⟩] ++ [⟨"2", 5, 0⟩], 0, 1⟩ =
      (0, ⟨[⟨"1", 2, 0.5⟩] ++ [⟨"2", 5, 0⟩], 2.007 + calcTaskTime 0.9929755 ⟨"2", 5, 0⟩,
        estimate 0.9929755 ⟨"2", 5, 0⟩⟩) :=
  ⟨by decide!,
    (no_rest_when_energy_kept [⟨"1", 2, 0.5⟩] ⟨"2", 5, 0⟩
      ⟨[⟨"1", 2, 0.5⟩], 2.007, 0.9929755⟩ (by decide!)).2 rfl (by decide!) (by decide!),
    (no_rest_when_energy_kept [⟨"1", 2, 0.5⟩] ⟨"2", 5, 0⟩
      ⟨[⟨"1", 2, 0.5⟩], 2.007, 0.9929755⟩ (by decide!)).1 (by decide!)⟩

/-! ## The shape of the output of `plan()` -/

/-- A successful walk appends one block per task: the task alone, or a rest
task followed by the task. -/
theorem planLoop_blocks (ts : List Task) (w : Walk) (h : (planLoop ts w).1 = 0) :
    ∃ blocks : List (List Task),
      (planLoop ts w).2.temp = w.temp ++ blocks.flatten ∧
      List.Forall₂ (fun t b => b = [t] ∨ ∃ d, b = [⟨"REST", d, 0⟩, t]) ts blocks := by
  induction ts generalizing w with
  | nil => exact ⟨[], by simp [planLoop_nil], List.Forall₂.nil⟩
  | cons t ts ih =>
    rw [planLoop_cons] at h ⊢
    split_ifs at h ⊢ with h1 h2
    · simp at h
    · obtain ⟨blocks, hb, hf⟩ := ih _ h
      refine ⟨[restTask w.energyLevel, t] :: blocks, ?_, List.Forall₂.cons (Or.inr ⟨_, rfl⟩) hf⟩
      rw [hb]
      simp [taskCommit, restCommit]
    · obtain ⟨blocks, hb, hf⟩ := ih _ h
      refine ⟨[t] :: blocks, ?_, List.Forall₂.cons (Or.inl rfl) hf⟩
      rw [hb]
      simp [taskCommit]

theorem blocks_sublist_length (ts : List Task) (blocks : List (List Task))
    (hf : List.Forall₂ (fun t b => b = [t] ∨ ∃ d, b = [⟨"REST", d, 0⟩, t]) ts blocks) :
    ts.Sublist blocks.flatten ∧ ts.length ≤ blocks.flatten.length ∧
      blocks.flatten.length ≤ 2 * ts.length := by
  induction hf with
  | nil => simp
  | @cons t b ts1 bs hb _ ih =>
    obtain ⟨hs, hl1, hl2⟩ := ih
    rcases hb with hb | ⟨d, hb⟩
    · subst hb
      refine ⟨?_, ?_, ?_⟩
      · show (t :: ts1).Sublist (t :: bs.flatten)
        exact hs.cons₂ t
      · simp only [List.flatten_cons, List.length_append, List.length_cons, List.length_nil]
        omega
      · simp only [List.flatten_cons, List.length_append, List.length_cons, List.length_nil]
        omega
    · subst hb
      refine ⟨?_, ?_, ?_⟩
      · show (t :: ts1).Sublist (⟨"REST", d, 0⟩ :: t :: bs.flatten)
        exact (hs.cons₂ t).cons _
      · simp only [List.flatten_cons, List.length_append, List.length_cons, List.length_nil]
        omega
      · simp only [List.flatten_cons, List.length_append, List.length_cons, List.length_nil]
        omega

/-- C19. On a successful `plan()` of `n` tasks the output is the
concatenation of one block per input task, in input order, each block being
the task alone or one task named "REST" of difficulty 0 followed by the task.
Hence the input is a subsequence of the output and the output length lies
between `n` and `2 * n`. -/
theorem plan_output_blocks (ts : List Task) (T0 e0 : ℚ)
    (h : (Planner.plan ⟨ts, T0, e0⟩).1 = 0) :
    ∃ blocks : List (List Task),
      (Planner.plan ⟨ts, T0, e0⟩).2.taskList = blocks.flatten ∧
      List.Forall₂ (fun t b => b = [t] ∨ ∃ d, b = [⟨"REST", d, 0⟩, t]) ts blocks ∧
      ts.Sublist (Planner.plan ⟨ts, T0, e0⟩).2.taskList ∧
      ts.length ≤ (Planner.plan ⟨ts, T0, e0⟩).2.taskList.length ∧
      (Planner.plan ⟨ts, T0, e0⟩).2.taskList.length ≤ 2 * ts.length := by
  obtain ⟨blocks, hb, hf⟩ := planLoop_blocks ts (Planner.start ⟨ts, T0, e0⟩) h
  have ht : (Planner.plan ⟨ts, T0, e0⟩).2.taskList = blocks.flatten := by
    rw [plan_taskList_of_success _ h]
    simpa [Planner.start] using hb
  rw [ht]
  exact ⟨blocks, rfl, hf, blocks_sublist_length ts blocks hf⟩

/-- Witness of C19 on the input `[(20, 3), (5, 3)]`, whose output is
`[(20, 3), REST, (5, 3)]`. -/
theorem plan_output_blocks_witness :
    (Planner.plan ⟨[⟨"1", 20, 3⟩, ⟨"2", 5, 3⟩], 0, 1⟩).1 = 0 ∧
    ∃ blocks : List (List Task),
      (Planner.plan ⟨[⟨"1", 20, 3⟩, ⟨"2", 5, 3⟩], 0, 1⟩).2.taskList = blocks.flatten ∧
      List.Forall₂ (fun t b => b = [t] ∨ ∃ d, b = [⟨"REST", d, 0⟩, t])
        [⟨"1", 20, 3⟩, ⟨"2", 5, 3⟩] blocks ∧
      List.Sublist [⟨"1", 20, 3⟩, ⟨"2", 5, 3⟩]
        (Planner.plan ⟨[⟨"1", 20, 3⟩, ⟨"2", 5, 3⟩], 0, 1⟩).2.taskList ∧
      [(⟨"1", 20, 3⟩ : Task), ⟨"2", 5, 3⟩].length ≤
        (Planner.plan ⟨[⟨"1", 20, 3⟩, ⟨"2", 5, 3⟩], 0, 1⟩).2.taskList.length ∧
      (Planner.plan ⟨[⟨"1", 20, 3⟩, ⟨"2", 5, 3⟩], 0, 1⟩).2.taskList.length ≤
        2 * [(⟨"1", 20, 3⟩ : Task), ⟨"2", 5, 3⟩].length :=
  ⟨by decide!, plan_output_blocks [⟨"1", 20, 3⟩, ⟨"2", 5, 3⟩] 0 1 (by decide!)⟩

/-! ## Failure of `plan()` -/

/-- C20. When `plan()` returns 1 the task list is the input, unchanged, and
the accumulators are not restored: with `q` the planner left by the tasks
before the failing task `t`, `totalTime` is `q.totalTime` plus the time charged
by the rest commit made for `t`, `energyLevel` is the energy of that rest
commit, and that rest commit is the last entry of the history. -/
theorem plan_failure_not_atomic (ts : List Task) (T0 e0 : ℚ)
    (h : (Planner.plan ⟨ts, T0, e0⟩).1 = 1) :
    (Planner.plan ⟨ts, T0, e0⟩).2.taskList = ts ∧
    ∃ pre t post q, ts = pre ++ t :: post ∧ Planner.plan ⟨pre, T0, e0⟩ = (0, q) ∧
      estimate q.energyLevel t < ENERGY_MIN ∧
      estimate (restEnergy q.energyLevel t) t < 0 ∧
      (Planner.plan ⟨ts, T0, e0⟩).2.totalTime = q.totalTime + calcTaskTime q.energyLevel t ∧
      (Planner.plan ⟨ts, T0, e0⟩).2.energyLevel = restEnergy q.energyLevel t ∧
      Planner.planHistory ⟨ts, T0, e0⟩ =
        Planner.planHistory ⟨pre, T0, e0⟩ ++
          [⟨true, calcTaskTime q.energyLevel t, restEnergy q.energyLevel t⟩] := by
  have hst : ∀ l : List Task, (⟨l, T0, e0⟩ : Planner).start = ⟨[], T0, e0, []⟩ := fun _ => rfl
  have hl : (planLoop ts ⟨[], T0, e0, []⟩).1 = 1 := h
  constructor
  · simp [Planner.plan, hst, hl]
  · obtain ⟨pre, t, post, hsp, h0, he, hr⟩ := (planLoop_fail_iff ts _).mp hl
    have hf := planLoop_fail_state pre post t _ h0 he hr
    rw [← hsp] at hf
    refine ⟨pre, t, post, (Planner.plan ⟨pre, T0, e0⟩).2, hsp, Prod.ext h0 rfl, he, hr, ?_, ?_, ?_⟩
    · simp only [Planner.plan, hst, hf]
      rfl
    · simp only [Planner.plan, hst, hf]
      rfl
    · simp only [Planner.planHistory, Planner.plan, hst, hf]
      rfl

/-- Witness of C20: the single task `(100, 1)` fails from time 0 and energy
1 and leaves `totalTime = 169.3`. -/
theorem plan_failure_not_atomic_witness :
    (Planner.plan ⟨[⟨"1", 100, 1⟩], 0, 1⟩).1 = 1 ∧
    Planner.plan ⟨[⟨"1", 100, 1⟩], 0, 1⟩ = (1, ⟨[⟨"1", 100, 1⟩], 169.3, 1⟩) ∧
    (Planner.plan ⟨[⟨"1", 100, 1⟩], 0, 1⟩).2.taskList = [⟨"1", 100, 1⟩] ∧
    ∃ pre t post q, [(⟨"1", 100, 1⟩ : Task)] = pre ++ t :: post ∧
      Planner.plan ⟨pre, 0, 1⟩ = (0, q) ∧
      estimate q.energyLevel t < ENERGY_MIN ∧
      estimate (restEnergy q.energyLevel t) t < 0 ∧
      (Planner.plan ⟨[⟨"1", 100, 1⟩], 0, 1⟩).2.totalTime =
        q.totalTime + calcTaskTime q.energyLevel t ∧
      (Planner.plan ⟨[⟨"1", 100, 1⟩], 0, 1⟩).2.energyLevel = restEnergy q.energyLevel t ∧
      Planner.planHistory ⟨[⟨"1", 100, 1⟩], 0, 1⟩ =
        Planner.planHistory ⟨pre, 0, 1⟩ ++
          [⟨true, calcTaskTime q.energyLevel t, restEnergy q.energyLevel t⟩] :=
  ⟨by decide!, by decide!, plan_failure_not_atomic [⟨"1", 100, 1⟩] 0 1 (by decide!)⟩

/-! ## The baseline of an iteration -/

theorem getNeighbours_perm_mem (s x : List Task) (h : x ∈ getNeighbours s) : x.Perm s := by
  obtain ⟨i, j, hij, _, rfl⟩ := mem_getNeighbours s x h
  exact swapAt_perm s i j hij

/-- The neighbourhood searched by an iteration is the one of its baseline. -/
theorem tabuIteration_eq_baseline (st : TabuState) (i : Nat) :
    tabuIteration st i =
      ((st.bestSolutionsList ++ [Planner.new])[i]?).bind fun cur =>
        (tabuBaseline st i).bind fun b =>
          (searchNeighbourhood { cur with taskList := b } st.tabuList).map fun r =>
            { bestSolutionsList := (st.bestSolutionsList ++ [Planner.new]).set i r.1
              tabuList :=
                if (st.tabuList ++ [r.1.taskList]).length ≥ TABU_MAX_SIZE
                then (st.tabuList ++ [r.1.taskList]).tail else st.tabuList ++ [r.1.taskList]
              previousRawSolution := r.2 } := by
  unfold tabuIteration tabuBaseline
  cases hc : (st.bestSolutionsList ++ [Planner.new])[i]? with
  | none => simp only [hc, Option.none_bind]
  | some cur =>
    simp only [hc, Option.some_bind]
    by_cases hi : i > 0
    · simp only [hi, if_true]
      cases searchNeighbourhood { cur with taskList := st.previousRawSolution } st.tabuList <;> rfl
    · simp only [hi, if_false]
      cases searchNeighbourhood cur st.tabuList <;> rfl

/-- The raw solution kept across iterations is always a permutation of the
input. -/
theorem tabuRun_previousRaw_perm (p : Planner) (hn : 2 ≤ p.taskList.length) (k : Nat) :
    ∃ st, tabuRun p k = some st ∧ st.previousRawSolution.Perm p.taskList := by
  induction k with
  | zero => exact ⟨tabuInit p, rfl, List.Perm.refl _⟩
  | succ k ih =>
    obtain ⟨st, hst, hperm⟩ := ih
    obtain ⟨st0, hst0, hl0, hprev, hcur⟩ := tabuRun_invariant p hn k
    have hEq : st0 = st := Option.some.inj (hst0.symm.trans hst)
    subst hEq
    obtain ⟨r, -, hmem, hit⟩ := tabuIteration_step st0 k hl0 hcur (by omega)
    exact ⟨_, by rw [tabuRun_succ, hst]; exact hit,
      (getNeighbours_perm_mem _ _ hmem).trans hperm⟩

/-- C18. On an input of at least two tasks, the sequence from which
iteration `k` generates its neighbourhood (the input for `k = 0`,
`previousRawSolution` afterwards) is a permutation of the input task list, of
the same length, all of whose elements are input tasks. -/
theorem tabuBaseline_perm (p : Planner) (hn : 2 ≤ p.taskList.length) (k : Nat) :
    ∃ st b, tabuRun p k = some st ∧ tabuBaseline st k = some b ∧
      (k = 0 → b = p.taskList) ∧ (0 < k → b = st.previousRawSolution) ∧
      b.Perm p.taskList ∧ b.length = p.taskList.length ∧ ∀ t ∈ b, t ∈ p.taskList := by
  obtain ⟨st, hst, hperm⟩ := tabuRun_previousRaw_perm p hn k
  obtain ⟨st0, hst0, hl0, hprev, tl, htl, hz, -⟩ := tabuRun_invariant p hn k
  have hEq : st0 = st := Option.some.inj (hst0.symm.trans hst)
  subst hEq
  have hget : (st0.bestSolutionsList ++ [Planner.new])[k]? = some ⟨tl, 0, 1⟩ := by
    rw [List.getElem?_append_left (by omega)]
    exact htl
  have hb : tabuBaseline st0 k = some st0.previousRawSolution := by
    unfold tabuBaseline
    simp only [hget]
    split_ifs with hk
    · rfl
    · rw [hz (by omega)]
  refine ⟨st0, st0.previousRawSolution, hst, hb, ?_, fun _ => rfl, hperm, hperm.length_eq, ?_⟩
  · intro hk
    subst hk
    rw [tabuRun_zero] at hst
    rw [← Option.some.inj hst]
    rfl
  · intro t ht
    exact hperm.subset ht

/-- Witness of C18: the second iteration on the input `[(20, 3), (5, 3)]`. -/
theorem tabuBaseline_perm_witness :
    2 ≤ (Planner.mk [⟨"1", 20, 3⟩, ⟨"2", 5, 3⟩] 0 1).taskList.length ∧
    ∃ st b, tabuRun ⟨[⟨"1", 20, 3⟩, ⟨"2", 5, 3⟩], 0, 1⟩ 1 = some st ∧
      tabuBaseline st 1 = some b ∧
      (1 = 0 → b = [⟨"1", 20, 3⟩, ⟨"2", 5, 3⟩]) ∧ (0 < 1 → b = st.previousRawSolution) ∧
      b.Perm [⟨"1", 20, 3⟩, ⟨"2", 5, 3⟩] ∧
      b.length = [(⟨"1", 20, 3⟩ : Task), ⟨"2", 5, 3⟩].length ∧
      ∀ t ∈ b, t ∈ [(⟨"1", 20, 3⟩ : Task), ⟨"2", 5, 3⟩] :=
  ⟨by decide, tabuBaseline_perm ⟨[⟨"1", 20, 3⟩, ⟨"2", 5, 3⟩], 0, 1⟩ (by decide) 1⟩

/-! ## What the tabu list holds and excludes -/

/-- C17, the code at the failing input `[(20, 3), (5, 3)]`: the second
iteration records the planned output `[(20, 3), REST, (5, 3)]` and pushes it
on the tabu list, which then holds a sequence of three tasks, one of them the
synthesized rest task, that is no ordering of the two input tasks. -/
theorem tabuList_holds_planned_output :
    (tabuRun ⟨[⟨"1", 20, 3⟩, ⟨"2", 5, 3⟩], 0, 1⟩ 2).map (fun st => st.tabuList) =
      some [[⟨"1", 20, 3⟩, ⟨"2", 5, 3⟩], [⟨"2", 5, 3⟩, ⟨"1", 20, 3⟩],
        [⟨"1", 20, 3⟩, ⟨"REST", 58.758, 0⟩, ⟨"2", 5, 3⟩]] ∧
    (tabuRun ⟨[⟨"1", 20, 3⟩, ⟨"2", 5, 3⟩], 0, 1⟩ 2).map (fun st => st.previousRawSolution) =
      some [⟨"1", 20, 3⟩, ⟨"2", 5, 3⟩] ∧
    (⟨"REST", 58.758, 0⟩ : Task) ∉ [(⟨"1", 20, 3⟩ : Task), ⟨"2", 5, 3⟩] := by
  decide!

/-- C16, counterexample: on the input `[(2, 0.5), (3, 0.5)]` the tabu list
at the start of the second iteration is `[input, swapped input]`, and the
sequence recorded by that iteration is the input itself, taken from the first
neighbour without a look at the tabu list. -/
theorem recorded_result_in_tabuList :
    (tabuRun ⟨[⟨"1", 2, 0.5⟩, ⟨"2", 3, 0.5⟩], 0, 1⟩ 1).map (fun st => st.tabuList) =
      some [[⟨"1", 2, 0.5⟩, ⟨"2", 3, 0.5⟩], [⟨"2", 3, 0.5⟩, ⟨"1", 2, 0.5⟩]] ∧
    (tabuRun ⟨[⟨"1", 2, 0.5⟩, ⟨"2", 3, 0.5⟩], 0, 1⟩ 2).bind
        (fun st => st.bestSolutionsList[1]?.map Planner.taskList) =
      some [⟨"1", 2, 0.5⟩, ⟨"2", 3, 0.5⟩] ∧
    [(⟨"1", 2, 0.5⟩ : Task), ⟨"2", 3, 0.5⟩] ∈
      [[(⟨"1", 2, 0.5⟩ : Task), ⟨"2", 3, 0.5⟩], [⟨"2", 3, 0.5⟩, ⟨"1", 2, 0.5⟩]] := by
  decide!

/-! ## The candidate loop -/

theorem candidateStep_eq (tabuList : List (List Task)) (st : Planner × List Task)
    (c : List Task) :
    candidateStep tabuList st c =
      if c ∉ tabuList ∧ (Planner.plan ⟨c, 0, 1⟩).1 = 0 ∧
          (Planner.plan ⟨c, 0, 1⟩).2.totalTime < st.1.totalTime
      then ((Planner.plan ⟨c, 0, 1⟩).2, c) else st := by
  unfold candidateStep
  simp only [Planner.resetStats]
  by_cases h1 : c ∈ tabuList
  · simp [h1]
  · by_cases h2 : (Planner.plan ⟨c, 0, 1⟩).1 = 0
    · by_cases h3 : (Planner.plan ⟨c, 0, 1⟩).2.totalTime < st.1.totalTime
      · simp [h1, h2, h3]
      · simp [h1, h2, h3]
    · simp [h1, h2]

/-- The candidate loop keeps the planner with the least `totalTime` among the
one it starts from and the results of the candidates that are not tabu and
are planned without failure; a candidate replaces the planner held only with a
strictly smaller `totalTime`, so the first one reaching the least value is
kept. -/
theorem foldl_candidateStep_min (tabuList : List (List Task)) (l : List (List Task))
    (st : Planner × List Task) :
    (l.foldl (candidateStep tabuList) st).1.totalTime ≤ st.1.totalTime ∧
    (∀ c ∈ l, c ∉ tabuList → (Planner.plan ⟨c, 0, 1⟩).1 = 0 →
      (l.foldl (candidateStep tabuList) st).1.totalTime ≤
        (Planner.plan ⟨c, 0, 1⟩).2.totalTime) ∧
    (l.foldl (candidateStep tabuList) st = st ∨
      ∃ (i : Nat) (c : List Task), l[i]? = some c ∧ c ∉ tabuList ∧
        (Planner.plan ⟨c, 0, 1⟩).1 = 0 ∧
        l.foldl (candidateStep tabuList) st = ((Planner.plan ⟨c, 0, 1⟩).2, c) ∧
        (Planner.plan ⟨c, 0, 1⟩).2.totalTime < st.1.totalTime ∧
        ∀ (j : Nat) (d : List Task), j < i → l[j]? = some d → d ∉ tabuList →
          (Planner.plan ⟨d, 0, 1⟩).1 = 0 →
          (Planner.plan ⟨c, 0, 1⟩).2.totalTime < (Planner.plan ⟨d, 0, 1⟩).2.totalTime) := by
  induction l generalizing st with
  | nil => exact ⟨le_refl _, fun c hc => absurd hc (List.not_mem_nil c), Or.inl rfl⟩
  | cons a l ih =>
    rw [List.foldl_cons]
    obtain ⟨hA, hB, hC⟩ := ih (candidateStep tabuList st a)
    by_cases hacc : a ∉ tabuList ∧ (Planner.plan ⟨a, 0, 1⟩).1 = 0 ∧
        (Planner.plan ⟨a, 0, 1⟩).2.totalTime < st.1.totalTime
    · have hstep : candidateStep tabuList st a = ((Planner.plan ⟨a, 0, 1⟩).2, a) := by
        rw [candidateStep_eq, if_pos hacc]
      rw [hstep] at hA hB hC ⊢
      refine ⟨le_trans hA hacc.2.2.le, ?_, Or.inr ?_⟩
      · intro c hc hct hcp
        rcases List.mem_cons.mp hc with rfl | hc
        · exact hA
        · exact hB c hc hct hcp
      · rcases hC with hC | ⟨i, c, hi, hct, hcp, hr, hlt, hfirst⟩
        · refine ⟨0, a, by simp, hacc.1, hacc.2.1, hC, hacc.2.2, ?_⟩
          intro j d hj
          omega
        · refine ⟨i + 1, c, by simpa using hi, hct, hcp, hr, lt_trans hlt hacc.2.2, ?_⟩
          intro j d hj hd hdt hdp
          cases j with
          | zero =>
            simp only [List.getElem?_cons_zero, Option.some.injEq] at hd
            rw [← hd]
            exact hlt
          | succ j =>
            simp only [List.getElem?_cons_succ] at hd
            exact hfirst j d (by omega) hd hdt hdp
    · have hstep : candidateStep tabuList st a = st := by
        rw [candidateStep_eq, if_neg hacc]
      rw [hstep] at hA hB hC ⊢
      refine ⟨hA, ?_, ?_⟩
      · intro c hc hct hcp
        rcases List.mem_cons.mp hc with rfl | hc
        · have : ¬ (Planner.plan ⟨c, 0, 1⟩).2.totalTime < st.1.totalTime :=
            fun h => hacc ⟨hct, hcp, h⟩
          exact le_trans hA (not_lt.mp this)
        · exact hB c hc hct hcp
      · rcases hC with hC | ⟨i, c, hi, hct, hcp, hr, hlt, hfirst⟩
        · exact Or.inl hC
        · refine Or.inr ⟨i + 1, c, by simpa using hi, hct, hcp, hr, hlt, ?_⟩
          intro j d hj hd hdt hdp
          cases j with
          | zero =>
            simp only [List.getElem?_cons_zero, Option.some.injEq] at hd
            rw [← hd] at hdt hdp ⊢
            have : ¬ (Planner.plan ⟨a, 0, 1⟩).2.totalTime < st.1.totalTime :=
              fun h => hacc ⟨hdt, hdp, h⟩
            exact lt_of_lt_of_le hlt (not_lt.mp this)
          | succ j =>
            simp only [List.getElem?_cons_succ] at hd
            exact hfirst j d (by omega) hd hdt hdp

/-- The record of iteration `k` on an input of at least two tasks: the state
`st` it starts from, the first neighbour of its baseline and the result `r` of
its neighbourhood search, which is what the returned list holds at index
`k`. -/
theorem tabuSearch_iteration (p : Planner) (hn : 2 ≤ p.taskList.length) (k : Nat)
    (hk : k < TABU_SEARCH_COUNT) :
    ∃ st first r, tabuRun p k = some st ∧ tabuBaseline st k = some st.previousRawSolution ∧
      (getNeighbours st.previousRawSolution)[0]? = some first ∧
      r = (getNeighbours st.previousRawSolution).foldl (candidateStep st.tabuList)
        ((Planner.plan ⟨first, 0, 1⟩).2, first) ∧
      (tabuSearch p).bind (fun l => l[k]?) = some r.1 := by
  obtain ⟨st, hst, hl0, hprev, tl, htl, hz, hnil⟩ := tabuRun_invariant p hn k
  obtain ⟨st0, r, hst0, hr, he⟩ := tabuRun_entry_new p hn k
  have hEq : st0 = st := Option.some.inj (hst0.symm.trans hst)
  subst hEq
  have hget : (st0.bestSolutionsList ++ [Planner.new])[k]? = some ⟨tl, 0, 1⟩ := by
    rw [List.getElem?_append_left (by omega)]
    exact htl
  have hb : tabuBaseline st0 k = some st0.previousRawSolution := by
    unfold tabuBaseline
    simp only [hget]
    split_ifs with hk0
    · rfl
    · rw [hz (by omega)]
  obtain ⟨a, b, rest, hab⟩ : ∃ a b rest, st0.previousRawSolution = a :: b :: rest := by
    match hl : st0.previousRawSolution, (show 2 ≤ st0.previousRawSolution.length by omega) with
    | a :: b :: rest, _ => exact ⟨a, b, rest, rfl⟩
  have hh : (getNeighbours st0.previousRawSolution)[0]? = some (b :: a :: rest) := by
    rw [hab]; exact getNeighbours_head a b rest
  have hr2 := searchNeighbourhood_eq ⟨st0.previousRawSolution, 0, 1⟩ st0.tabuList _ hh
  rw [hr] at hr2
  refine ⟨st0, b :: a :: rest, r, hst, hb, hh, Option.some.inj hr2, ?_⟩
  rw [tabuSearch_entry p hn k hk]
  exact he

/-- C15, counterexample: in the first iteration on the input
`[(2, 0.5), (5, 3), (5, 1)]` the first neighbour leaves `T0 = 14.2466598`; the
second neighbour `[3, 2, 1]` is the first one in enumeration order with a value
strictly below `T0`, 13.5562232, and it is not in the tabu list; the recorded
result is the third neighbour `[1, 3, 2]`, whose value 13.07220715 is the
minimum. -/
theorem recorded_result_not_first_improving :
    getNeighbours [⟨"1", 2, 0.5⟩, ⟨"2", 5, 3⟩, ⟨"3", 5, 1⟩] =
      [[⟨"2", 5, 3⟩, ⟨"1", 2, 0.5⟩, ⟨"3", 5, 1⟩], [⟨"3", 5, 1⟩, ⟨"2", 5, 3⟩, ⟨"1", 2, 0.5⟩],
        [⟨"1", 2, 0.5⟩, ⟨"3", 5, 1⟩, ⟨"2", 5, 3⟩]] ∧
    (tabuInit ⟨[⟨"1", 2, 0.5⟩, ⟨"2", 5, 3⟩, ⟨"3", 5, 1⟩], 0, 1⟩).tabuList =
      [[⟨"1", 2, 0.5⟩, ⟨"2", 5, 3⟩, ⟨"3", 5, 1⟩]] ∧
    (Planner.plan ⟨[⟨"2", 5, 3⟩, ⟨"1", 2, 0.5⟩, ⟨"3", 5, 1⟩], 0, 1⟩).1 = 0 ∧
    (Planner.plan ⟨[⟨"2", 5, 3⟩, ⟨"1", 2, 0.5⟩, ⟨"3", 5, 1⟩], 0, 1⟩).2.totalTime = 14.2466598 ∧
    (Planner.plan ⟨[⟨"3", 5, 1⟩, ⟨"2", 5, 3⟩, ⟨"1", 2, 0.5⟩], 0, 1⟩).1 = 0 ∧
    (Planner.plan ⟨[⟨"3", 5, 1⟩, ⟨"2", 5, 3⟩, ⟨"1", 2, 0.5⟩], 0, 1⟩).2.totalTime = 13.5562232 ∧
    (tabuSearch ⟨[⟨"1", 2, 0.5⟩, ⟨"2", 5, 3⟩, ⟨"3", 5, 1⟩], 0, 1⟩).bind (fun l => l[0]?) =
      some (Planner.plan ⟨[⟨"1", 2, 0.5⟩, ⟨"3", 5, 1⟩, ⟨"2", 5, 3⟩], 0, 1⟩).2 ∧
    (Planner.plan ⟨[⟨"1", 2, 0.5⟩, ⟨"3", 5, 1⟩, ⟨"2", 5, 3⟩], 0, 1⟩).2.totalTime =
      13.07220715 := by
  rw [tabuSearch_entry _ (by decide) 0 (by decide)]
  decide!

/-- C15, amended. In iteration `k` of `tabuSearch` on an input of at least two
tasks, with `first` the first neighbour of the baseline and `T0` the
`totalTime` its evaluation leaves, the recorded result `r.1` has the least
`totalTime` among `T0` and the results of the neighbours that are not in the
tabu list and are planned without failure: it is at most each of them, and it
is either the first neighbour's result, or the result of such a neighbour,
strictly below `T0`, the first in enumeration order that reaches this least
value. -/
theorem iteration_result_minimal (p : Planner) (hn : 2 ≤ p.taskList.length) (k : Nat)
    (hk : k < TABU_SEARCH_COUNT) :
    ∃ st first r, tabuRun p k = some st ∧ tabuBaseline st k = some st.previousRawSolution ∧
      (getNeighbours st.previousRawSolution)[0]? = some first ∧
      (tabuSearch p).bind (fun l => l[k]?) = some r.1 ∧
      r.1.totalTime ≤ (Planner.plan ⟨first, 0, 1⟩).2.totalTime ∧
      (∀ c ∈ getNeighbours st.previousRawSolution, c ∉ st.tabuList →
        (Planner.plan ⟨c, 0, 1⟩).1 = 0 →
        r.1.totalTime ≤ (Planner.plan ⟨c, 0, 1⟩).2.totalTime) ∧
      (r = ((Planner.plan ⟨first, 0, 1⟩).2, first) ∨
        ∃ (i : Nat) (c : List Task), (getNeighbours st.previousRawSolution)[i]? = some c ∧
          c ∉ st.tabuList ∧ (Planner.plan ⟨c, 0, 1⟩).1 = 0 ∧
          r = ((Planner.plan ⟨c, 0, 1⟩).2, c) ∧
          (Planner.plan ⟨c, 0, 1⟩).2.totalTime < (Planner.plan ⟨first, 0, 1⟩).2.totalTime ∧
          ∀ (j : Nat) (d : List Task), j < i →
            (getNeighbours st.previousRawSolution)[j]? = some d → d ∉ st.tabuList →
            (Planner.plan ⟨d, 0, 1⟩).1 = 0 →
            (Planner.plan ⟨c, 0, 1⟩).2.totalTime < (Planner.plan ⟨d, 0, 1⟩).2.totalTime) := by
  obtain ⟨st, first, r, hst, hb, hfirst, hr, he⟩ := tabuSearch_iteration p hn k hk
  obtain ⟨hA, hB, hC⟩ := foldl_candidateStep_min st.tabuList
    (getNeighbours st.previousRawSolution) ((Planner.plan ⟨first, 0, 1⟩).2, first)
  rw [← hr] at hA hB hC
  exact ⟨st, first, r, hst, hb, hfirst, he, hA, hB, hC⟩

/-- Witness of C15 as amended: the second iteration on the input `[(20, 3), (5, 3)]`. -/
theorem iteration_result_minimal_witness :
    2 ≤ (Planner.mk [⟨"1", 20, 3⟩, ⟨"2", 5, 3⟩] 0 1).taskList.length ∧
    1 < TABU_SEARCH_COUNT ∧
    ∃ st first r, tabuRun ⟨[⟨"1", 20, 3⟩, ⟨"2", 5, 3⟩], 0, 1⟩ 1 = some st ∧
      tabuBaseline st 1 = some st.previousRawSolution ∧
      (getNeighbours st.previousRawSolution)[0]? = some first ∧
      (tabuSearch ⟨[⟨"1", 20, 3⟩, ⟨"2", 5, 3⟩], 0, 1⟩).bind (fun l => l[1]?) = some r.1 ∧
      r.1.totalTime ≤ (Planner.plan ⟨first, 0, 1⟩).2.totalTime ∧
      (∀ c ∈ getNeighbours st.previousRawSolution, c ∉ st.tabuList →
        (Planner.plan ⟨c, 0, 1⟩).1 = 0 →
        r.1.totalTime ≤ (Planner.plan ⟨c, 0, 1⟩).2.totalTime) ∧
      (r = ((Planner.plan ⟨first, 0, 1⟩).2, first) ∨
        ∃ (i : Nat) (c : List Task), (getNeighbours st.previousRawSolution)[i]? = some c ∧
          c ∉ st.tabuList ∧ (Planner.plan ⟨c, 0, 1⟩).1 = 0 ∧
          r = ((Planner.plan ⟨c, 0, 1⟩).2, c) ∧
          (Planner.plan ⟨c, 0, 1⟩).2.totalTime < (Planner.plan ⟨first, 0, 1⟩).2.totalTime ∧
          ∀ (j : Nat) (d : List Task), j < i →
            (getNeighbours st.previousRawSolution)[j]? = some d → d ∉ st.tabuList →
            (Planner.plan ⟨d, 0, 1⟩).1 = 0 →
            (Planner.plan ⟨c, 0, 1⟩).2.totalTime < (Planner.plan ⟨d, 0, 1⟩).2.totalTime) :=
  ⟨by decide, by decide,
    iteration_result_minimal ⟨[⟨"1", 20, 3⟩, ⟨"2", 5, 3⟩], 0, 1⟩ (by decide) 1 (by decide)⟩

/-- C16, amended. In iteration `k` of `tabuSearch` on an input of at least two
tasks, the recorded result is either the evaluation of the first neighbour,
which is recorded without a look at the tabu list, or the successful
evaluation of a neighbour whose sequence was not in the tabu list at the start
of the iteration: a neighbour found in the tabu list never replaces the first
neighbour's result. -/
theorem recorded_result_first_or_not_tabu (p : Planner) (hn : 2 ≤ p.taskList.length)
    (k : Nat) (hk : k < TABU_SEARCH_COUNT) :
    ∃ st first r, tabuRun p k = some st ∧
      (getNeighbours st.previousRawSolution)[0]? = some first ∧
      (tabuSearch p).bind (fun l => l[k]?) = some r.1 ∧
      (r = ((Planner.plan ⟨first, 0, 1⟩).2, first) ∨
        (r.2 ∈ getNeighbours st.previousRawSolution ∧ r.2 ∉ st.tabuList ∧
          Planner.plan ⟨r.2, 0, 1⟩ = (0, r.1))) := by
  obtain ⟨st, first, r, hst, -, hfirst, hr, he⟩ := tabuSearch_iteration p hn k hk
  obtain ⟨-, -, hC⟩ := foldl_candidateStep_min st.tabuList
    (getNeighbours st.previousRawSolution) ((Planner.plan ⟨first, 0, 1⟩).2, first)
  rw [← hr] at hC
  refine ⟨st, first, r, hst, hfirst, he, ?_⟩
  rcases hC with hC | ⟨i, c, hi, hct, hcp, hrc, -, -⟩
  · exact Or.inl hC
  · right
    rw [hrc]
    exact ⟨List.getElem?_mem hi, hct, Prod.ext hcp rfl⟩

/-- Witness of C16 as amended: the second iteration on the input
`[(2, 0.5), (3, 0.5)]`. -/
theorem recorded_result_first_or_not_tabu_witness :
    2 ≤ (Planner.mk [⟨"1", 2, 0.5⟩, ⟨"2", 3, 0.5⟩] 0 1).taskList.length ∧
    1 < TABU_SEARCH_COUNT ∧
    ∃ st first r, tabuRun ⟨[⟨"1", 2, 0.5⟩, ⟨"2", 3, 0.5⟩], 0, 1⟩ 1 = some st ∧
      (getNeighbours st.previousRawSolution)[0]? = some first ∧
      (tabuSearch ⟨[⟨"1", 2, 0.5⟩, ⟨"2", 3, 0.5⟩], 0, 1⟩).bind (fun l => l[1]?) = some r.1 ∧
      (r = ((Planner.plan ⟨first, 0, 1⟩).2, first) ∨
        (r.2 ∈ getNeighbours st.previousRawSolution ∧ r.2 ∉ st.tabuList ∧
          Planner.plan ⟨r.2, 0, 1⟩ = (0, r.1))) :=
  ⟨by decide, by decide,
    recorded_result_first_or_not_tabu ⟨[⟨"1", 2, 0.5⟩, ⟨"2", 3, 0.5⟩], 0, 1⟩ (by decide) 1
      (by decide)⟩

/-! ## The selection of `printResults` -/

/-- The scan of `printResults` keeps the first planner of least `totalTime`
among the one it starts from and the planners scanned. -/
theorem scan_first_minimum (l : List Planner) (b0 : Planner) :
    (l.foldl (fun best result => if result.totalTime < best.totalTime then result else best)
      b0).totalTime ≤ b0.totalTime ∧
    (∀ x ∈ l, (l.foldl (fun best result =>
      if result.totalTime < best.totalTime then result else best) b0).totalTime ≤ x.totalTime) ∧
    (l.foldl (fun best result => if result.totalTime < best.totalTime then result else best)
        b0 = b0 ∨
      ∃ i : Nat, l[i]? = some (l.foldl (fun best result =>
          if result.totalTime < best.totalTime then result else best) b0) ∧
        (l.foldl (fun best result =>
          if result.totalTime < best.totalTime then result else best) b0).totalTime
            < b0.totalTime ∧
        ∀ (j : Nat) (x : Planner), j < i → l[j]? = some x →
          (l.foldl (fun best result =>
            if result.totalTime < best.totalTime then result else best) b0).totalTime
              < x.totalTime) := by
  induction l generalizing b0 with
  | nil => exact ⟨le_refl _, fun x hx => absurd hx (List.not_mem_nil x), Or.inl rfl⟩
  | cons a l ih =>
    rw [List.foldl_cons]
    by_cases hacc : a.totalTime < b0.totalTime
    · rw [if_pos hacc]
      obtain ⟨hA, hB, hC⟩ := ih a
      refine ⟨le_trans hA hacc.le, ?_, Or.inr ?_⟩
      · intro x hx
        rcases List.mem_cons.mp hx with rfl | hx
        · exact hA
        · exact hB x hx
      · rcases hC with hC | ⟨i, hi, hlt, hfirst⟩
        · refine ⟨0, by simp [hC], by rw [hC]; exact hacc, ?_⟩
          intro j x hj
          omega
        · refine ⟨i + 1, by simpa using hi, lt_trans hlt hacc, ?_⟩
          intro j x hj hx
          cases j with
          | zero =>
            simp only [List.getElem?_cons_zero, Option.some.injEq] at hx
            rw [← hx]
            exact hlt
          | succ j =>
            simp only [List.getElem?_cons_succ] at hx
            exact hfirst j x (by omega) hx
    · rw [if_neg hacc]
      obtain ⟨hA, hB, hC⟩ := ih b0
      refine ⟨hA, ?_, ?_⟩
      · intro x hx
        rcases List.mem_cons.mp hx with rfl | hx
        · exact le_trans hA (not_lt.mp hacc)
        · exact hB x hx
      · rcases hC with hC | ⟨i, hi, hlt, hfirst⟩
        · exact Or.inl hC
        · refine Or.inr ⟨i + 1, by simpa using hi, hlt, ?_⟩
          intro j x hj hx
          cases j with
          | zero =>
            simp only [List.getElem?_cons_zero, Option.some.injEq] at hx
            rw [← hx]
            exact lt_of_lt_of_le hlt (not_lt.mp hacc)
          | succ j =>
            simp only [List.getElem?_cons_succ] at hx
            exact hfirst j x (by omega) hx

/-- When some entry before the last has a `totalTime` below `UINT32_MAX`,
`printResults` selects the first entry, among those before the last, of least
`totalTime`. -/
theorem printResults_selects (results : List Planner)
    (hlt : ∃ r ∈ results.dropLast, r.totalTime < UINT32_MAX) :
    ∃ (i : Nat) (best : Planner), printResults results = some best ∧
      results.dropLast[i]? = some best ∧
      (∀ r ∈ results.dropLast, best.totalTime ≤ r.totalTime) ∧
      ∀ (j : Nat) (r : Planner), j < i → results.dropLast[j]? = some r →
        best.totalTime < r.totalTime := by
  obtain ⟨r0, hr0, hr0lt⟩ := hlt
  have hpr : printResults results = some (results.dropLast.foldl
      (fun best result => if result.totalTime < best.totalTime then result else best)
      { Planner.new with totalTime := UINT32_MAX }) := by
    cases results with
    | nil => simp at hr0
    | cons a l => rfl
  obtain ⟨-, hB, hC⟩ := scan_first_minimum results.dropLast
    { Planner.new with totalTime := UINT32_MAX }
  rcases hC with hC | ⟨i, hi, -, hfirst⟩
  · have h1 := hB r0 hr0
    rw [hC] at h1
    exact absurd hr0lt (not_lt.mpr h1)
  · exact ⟨i, _, hpr, hi, hB, hfirst⟩

theorem blocks_without_rest (ts : List Task) (blocks : List (List Task))
    (hf : List.Forall₂ (fun t b => b = [t] ∨ ∃ d, b = [⟨"REST", d, 0⟩, t]) ts blocks)
    (hno : ∀ t ∈ blocks.flatten, t.name ≠ "REST") : ts = blocks.flatten := by
  induction hf with
  | nil => rfl
  | @cons t b ts1 bs hb _ ih =>
    rcases hb with hb | ⟨d, hb⟩
    · subst hb
      have := ih (fun u hu => hno u (by simp [hu]))
      simp [this]
    · subst hb
      exact absurd rfl (hno ⟨"REST", d, 0⟩ (by simp))

/-- A planner whose task list holds no task named "REST" is feasible only if
planning that very task list from time 0 and energy 1 succeeds. -/
theorem feasible_without_rest (q : Planner) (hq : q.Feasible)
    (hno : ∀ t ∈ q.taskList, t.name ≠ "REST") :
    (Planner.plan ⟨q.taskList, 0, 1⟩).1 = 0 := by
  obtain ⟨ts, hts⟩ := hq
  have h0 : (Planner.plan ⟨ts, 0, 1⟩).1 = 0 := by rw [hts]
  obtain ⟨blocks, hb, hf⟩ := planLoop_blocks ts (Planner.start ⟨ts, 0, 1⟩) h0
  have ht : q.taskList = blocks.flatten := by
    have := plan_taskList_of_success _ h0
    rw [hts] at this
    rw [this]
    simpa [Planner.start] using hb
  have hts2 : ts = q.taskList := by
    rw [ht]
    exact blocks_without_rest ts blocks hf (by rw [← ht]; exact hno)
  rw [← hts2]
  exact h0

set_option maxHeartbeats 4000000 in
/-- C12, the code at the failing input `[(20, 3), (10, 5)]`: the second
iteration plans the first neighbour `[(20, 3), (10, 5)]`, `plan()` returns 1
and the value is dropped, so entry 1 of the list keeps the planner as that
failed call left it, with the partial `totalTime` 52.8816. `printResults`
selects it: it is not feasible, and it is preferred to the feasible entry 0,
whose `totalTime` is 87.52. -/
theorem printResults_selects_infeasible :
    (tabuSearch ⟨[⟨"1", 20, 3⟩, ⟨"2", 10, 5⟩], 0, 1⟩).bind printResults =
      some ⟨[⟨"1", 20, 3⟩, ⟨"2", 10, 5⟩], 52.8816, 0.661436⟩ ∧
    Planner.plan ⟨[⟨"1", 20, 3⟩, ⟨"2", 10, 5⟩], 0, 1⟩ =
      (1, ⟨[⟨"1", 20, 3⟩, ⟨"2", 10, 5⟩], 52.8816, 0.661436⟩) ∧
    (tabuSearch ⟨[⟨"1", 20, 3⟩, ⟨"2", 10, 5⟩], 0, 1⟩).bind (fun l => l[1]?) =
      some ⟨[⟨"1", 20, 3⟩, ⟨"2", 10, 5⟩], 52.8816, 0.661436⟩ ∧
    ¬ Planner.Feasible ⟨[⟨"1", 20, 3⟩, ⟨"2", 10, 5⟩], 52.8816, 0.661436⟩ ∧
    (tabuSearch ⟨[⟨"1", 20, 3⟩, ⟨"2", 10, 5⟩], 0, 1⟩).bind (fun l => l[0]?) =
      some ⟨[⟨"2", 10, 5⟩, ⟨"REST", 46.025, 0⟩, ⟨"1", 20, 3⟩], 87.52, 0.41242⟩ ∧
    Planner.Feasible ⟨[⟨"2", 10, 5⟩, ⟨"REST", 46.025, 0⟩, ⟨"1", 20, 3⟩], 87.52, 0.41242⟩ := by
  have hsel : (tabuSearch ⟨[⟨"1", 20, 3⟩, ⟨"2", 10, 5⟩], 0, 1⟩).bind printResults =
      some ⟨[⟨"1", 20, 3⟩, ⟨"2", 10, 5⟩], 52.8816, 0.661436⟩ := by decide!
  have hfail : Planner.plan ⟨[⟨"1", 20, 3⟩, ⟨"2", 10, 5⟩], 0, 1⟩ =
      (1, ⟨[⟨"1", 20, 3⟩, ⟨"2", 10, 5⟩], 52.8816, 0.661436⟩) := by decide!
  have hno : ∀ t ∈ [(⟨"1", 20, 3⟩ : Task), ⟨"2", 10, 5⟩], t.name ≠ "REST" := by decide
  have hinf : ¬ Planner.Feasible ⟨[⟨"1", 20, 3⟩, ⟨"2", 10, 5⟩], 52.8816, 0.661436⟩ := by
    intro hq
    have h := feasible_without_rest _ hq hno
    rw [hfail] at h
    exact absurd h (by decide)
  have hfirst : (tabuRun ⟨[⟨"1", 20, 3⟩, ⟨"2", 10, 5⟩], 0, 1⟩ (0 + 1)).bind
      (fun st => st.bestSolutionsList[0]?) =
      some ⟨[⟨"2", 10, 5⟩, ⟨"REST", 46.025, 0⟩, ⟨"1", 20, 3⟩], 87.52, 0.41242⟩ := by decide!
  have hok : Planner.plan ⟨[⟨"2", 10, 5⟩, ⟨"1", 20, 3⟩], 0, 1⟩ =
      (0, ⟨[⟨"2", 10, 5⟩, ⟨"REST", 46.025, 0⟩, ⟨"1", 20, 3⟩], 87.52, 0.41242⟩) := by decide!
  have hsecond : (tabuRun ⟨[⟨"1", 20, 3⟩, ⟨"2", 10, 5⟩], 0, 1⟩ (1 + 1)).bind
      (fun st => st.bestSolutionsList[1]?) =
      some ⟨[⟨"1", 20, 3⟩, ⟨"2", 10, 5⟩], 52.8816, 0.661436⟩ := by decide!
  refine ⟨hsel, hfail, ?_, hinf, ?_, ⟨_, hok⟩⟩
  · rw [tabuSearch_entry _ (by decide) 1 (by decide)]
    exact hsecond
  · rw [tabuSearch_entry _ (by decide) 0 (by decide)]
    exact hfirst

end WorkdayPlanner
